import Mathlib

/-!
Shallow embedding of the `radio-hal` crate: the blocking completion-poll
engine (`src/blocking.rs`), the async completion-poll engine
(`src/nonblocking.rs`) and the mock record-replay radio (`src/mock.rs`),
together with proofs of the behavioural properties claimed for them.

Machine integers are modelled as `Nat`/`Int`; `core::time::Duration` is a
count of nanoseconds and `as_micros` is truncating division by 1000, exactly
as in `std`. Rust panics (mock assertion failures, slice-index panics) and
fuel exhaustion of the polling loops are both rendered as `Option.none`;
distinguishing them is never needed because every claim fixes which one is in
play. Each engine additionally records the trace of device calls it makes,
so that call-ordering claims are statable.
-/

deriving instance DecidableEq for Except

namespace RadioHal

/-- `core::time::Duration`, modelled as a total nanosecond count. -/
structure Duration where
  nanos : Nat
deriving DecidableEq, Repr

/-- `Duration::as_micros`: whole microseconds, truncating. -/
def Duration.as_micros (d : Duration) : Nat := d.nanos / 1000

/-- `Duration::from_micros`. -/
def Duration.from_micros (n : Nat) : Duration := ⟨n * 1000⟩

/-- `Duration::from_millis`. -/
def Duration.from_millis (n : Nat) : Duration := ⟨n * 1000000⟩

/-- `BlockingOptions` from `src/blocking.rs`: poll interval and timeout.
(The struct has exactly these two fields.) -/
structure BlockingOptions where
  poll_interval : Duration
  timeout : Duration
deriving DecidableEq, Repr

/-- `BlockingOptions::default()`: 100us poll interval, 100ms timeout. -/
def BlockingOptions.default : BlockingOptions :=
  { poll_interval := Duration.from_micros 100, timeout := Duration.from_millis 100 }

/-- `BlockingError<E>` from `src/blocking.rs`: wraps the radio error type to
provide a `Timeout` variant. -/
inductive BlockingError (ε : Type) where
  | Inner (e : ε)
  | Timeout
deriving DecidableEq, Repr

/-- A device seen through the `Transmit` + `Power` traits, as a response
oracle: the outcome of `start_transmit`, the outcome of the `i`-th
`check_transmit` call, and the outcome of `set_power` at a given dBm. -/
structure TxDevice (ε : Type) where
  start : Except ε Unit
  check : Nat → Except ε Bool
  power : Int → Except ε Unit

/-- One device call made by a transmit engine, with its outcome. -/
inductive TxEvent (ε : Type) where
  | start (r : Except ε Unit)
  | check (r : Except ε Bool)
  | delay (us : Nat)
  | power (dbm : Int) (r : Except ε Unit)
deriving DecidableEq, Repr

/-- The device error carried by a transmit event, if any. -/
def TxEvent.err : TxEvent ε → Option ε
  | .start (.error e) => some e
  | .check (.error e) => some e
  | .power _ (.error e) => some e
  | _ => none

/-- Whether a transmit event is a `check_transmit` call. -/
def TxEvent.isCheck : TxEvent ε → Bool
  | .check _ => true
  | _ => false

/-- Whether a transmit event is a `set_power` call. -/
def TxEvent.isPower : TxEvent ε → Bool
  | .power _ _ => true
  | _ => false

/-- The polling loop of `do_transmit` (`src/blocking.rs`): check for
completion; on `false` add `poll_interval.as_micros()` to the counter `c`,
return `Timeout` if `c` exceeds `t`, otherwise delay and repeat. `i` indexes
the check calls, `fuel` bounds the recursion (`none` = the source loops on). -/
def transmitLoop (dev : TxDevice ε) (p t : Nat) :
    Nat → Nat → Nat → Option (List (TxEvent ε) × Except (BlockingError ε) Unit)
  | _, _, 0 => none
  | c, i, fuel + 1 =>
    match dev.check i with
    | .error e => some ([.check (.error e)], .error (.Inner e))
    | .ok true => some ([.check (.ok true)], .ok ())
    | .ok false =>
      if c + p > t then
        some ([.check (.ok false)], .error .Timeout)
      else
        (transmitLoop dev p t (c + p) (i + 1) fuel).map
          (fun r => (.check (.ok false) :: .delay (p % 4294967296) :: r.1, r.2))

/-- `do_transmit` (`src/blocking.rs`): `start_transmit`, then poll
`check_transmit` with timeout accumulation. Returns the trace of device
calls together with the result. -/
def do_transmit (dev : TxDevice ε) (opts : BlockingOptions) (fuel : Nat) :
    Option (List (TxEvent ε) × Except (BlockingError ε) Unit) :=
  match dev.start with
  | .error e => some ([.start (.error e)], .error (.Inner e))
  | .ok () =>
    (transmitLoop dev opts.poll_interval.as_micros opts.timeout.as_micros 0 0 fuel).map
      (fun r => (.start (.ok ()) :: r.1, r.2))

/-- A device seen through the `Receive` trait, as a response oracle:
outcome of `start_receive`, outcome of the `i`-th `check_receive` call, and
the outcome of the (at most one) `get_received` call, abstracted to the
`(usize, Info)` pair it returns. -/
structure RxDevice (ε ι : Type) where
  start : Except ε Unit
  check : Nat → Except ε Bool
  fetch : Except ε (Nat × ι)

/-- One device call made by the receive engine, with its outcome. -/
inductive RxEvent (ε ι : Type) where
  | start (r : Except ε Unit)
  | check (restart : Bool) (r : Except ε Bool)
  | fetch (r : Except ε (Nat × ι))
  | delay (us : Nat)
deriving DecidableEq

/-- The device error carried by a receive event, if any. -/
def RxEvent.err : RxEvent ε ι → Option ε
  | .start (.error e) => some e
  | .check _ (.error e) => some e
  | .fetch (.error e) => some e
  | _ => none

/-- Whether a receive event is a `check_receive` call. -/
def RxEvent.isCheck : RxEvent ε ι → Bool
  | .check _ _ => true
  | _ => false

/-- Whether a receive event is a `get_received` call. -/
def RxEvent.isFetch : RxEvent ε ι → Bool
  | .fetch _ => true
  | _ => false

/-- Whether a receive event is a `start_receive` call. -/
def RxEvent.isStart : RxEvent ε ι → Bool
  | .start _ => true
  | _ => false

/-- The polling loop of `do_receive` (`src/blocking.rs`): poll
`check_receive(true)`; on `true` call `get_received` and return its result,
on `false` accumulate the poll interval against the timeout, delay, repeat. -/
def receiveLoop (dev : RxDevice ε ι) (p t : Nat) :
    Nat → Nat → Nat → Option (List (RxEvent ε ι) × Except (BlockingError ε) (Nat × ι))
  | _, _, 0 => none
  | c, i, fuel + 1 =>
    match dev.check i with
    | .error e => some ([.check true (.error e)], .error (.Inner e))
    | .ok true =>
      match dev.fetch with
      | .error e => some ([.check true (.ok true), .fetch (.error e)], .error (.Inner e))
      | .ok ni => some ([.check true (.ok true), .fetch (.ok ni)], .ok ni)
    | .ok false =>
      if c + p > t then
        some ([.check true (.ok false)], .error .Timeout)
      else
        (receiveLoop dev p t (c + p) (i + 1) fuel).map
          (fun r => (.check true (.ok false) :: .delay (p % 4294967296) :: r.1, r.2))

/-- `do_receive` (`src/blocking.rs`): `start_receive`, then poll
`check_receive(true)` with timeout accumulation, fetching once on success. -/
def do_receive (dev : RxDevice ε ι) (opts : BlockingOptions) (fuel : Nat) :
    Option (List (RxEvent ε ι) × Except (BlockingError ε) (Nat × ι)) :=
  match dev.start with
  | .error e => some ([.start (.error e)], .error (.Inner e))
  | .ok () =>
    (receiveLoop dev opts.poll_interval.as_micros opts.timeout.as_micros 0 0 fuel).map
      (fun r => (.start (.ok ()) :: r.1, r.2))

/-- A device seen through the `State` trait for a `set_state_checked` call:
outcome of the initial `set_state(target)` and of the `i`-th `get_state`. -/
structure StDevice (σ ε : Type) where
  set : Except ε Unit
  get : Nat → Except ε σ

/-- One device call made by `set_state_checked`, with its outcome. -/
inductive StEvent (σ ε : Type) where
  | set (r : Except ε Unit)
  | get (r : Except ε σ)
  | delay (us : Nat)
deriving DecidableEq

/-- The device error carried by a state event, if any. -/
def StEvent.err : StEvent σ ε → Option ε
  | .set (.error e) => some e
  | .get (.error e) => some e
  | _ => none

/-- Whether a state event is a `get_state` call. -/
def StEvent.isGet : StEvent σ ε → Bool
  | .get _ => true
  | _ => false

/-- The polling loop of `set_state_checked` (`src/blocking.rs`): fetch the
state with `get_state`; succeed when it equals the requested state, otherwise
accumulate the poll interval against the timeout, delay, repeat. -/
def stateLoop [DecidableEq σ] (dev : StDevice σ ε) (target : σ) (p t : Nat) :
    Nat → Nat → Nat → Option (List (StEvent σ ε) × Except (BlockingError ε) Unit)
  | _, _, 0 => none
  | c, i, fuel + 1 =>
    match dev.get i with
    | .error e => some ([.get (.error e)], .error (.Inner e))
    | .ok s =>
      if target = s then
        some ([.get (.ok s)], .ok ())
      else if c + p > t then
        some ([.get (.ok s)], .error .Timeout)
      else
        (stateLoop dev target p t (c + p) (i + 1) fuel).map
          (fun r => (.get (.ok s) :: .delay (p % 4294967296) :: r.1, r.2))

/-- `set_state_checked` (`src/blocking.rs`): `set_state(target)`, then poll
`get_state` until it returns exactly the requested state, with the same
timeout accumulation as the transmit/receive loops. -/
def set_state_checked [DecidableEq σ] (dev : StDevice σ ε) (target : σ)
    (opts : BlockingOptions) (fuel : Nat) :
    Option (List (StEvent σ ε) × Except (BlockingError ε) Unit) :=
  match dev.set with
  | .error e => some ([.set (.error e)], .error (.Inner e))
  | .ok () =>
    (stateLoop dev target opts.poll_interval.as_micros opts.timeout.as_micros 0 0 fuel).map
      (fun r => (.set (.ok ()) :: r.1, r.2))

/-- `AsyncError<E>` from `src/nonblocking.rs`. -/
inductive AsyncError (ε : Type) where
  | Inner (e : ε)
  | Timeout
deriving DecidableEq, Repr

/-- `AsyncOptions` from `src/nonblocking.rs`: optional power override,
optional timeout, poll period, optional wake callback. The callback itself
is an external collaborator; the embedding records only whether one was
supplied (`wake_fn`), since the engine's behaviour depends only on that. -/
structure AsyncOptions where
  power : Option Int
  timeout : Option Duration
  poll_period : Duration
  wake_fn : Bool

/-- `AsyncOptions::default()`: no power, 100ms timeout, 10ms poll period,
no wake callback. -/
def AsyncOptions.default : AsyncOptions :=
  { power := none, timeout := some (Duration.from_millis 100),
    poll_period := Duration.from_millis 10, wake_fn := false }

/-- The state captured in `TransmitFuture` (`src/nonblocking.rs`): the
absolute expiry instant (nanoseconds, if a timeout was set), the poll
period, whether a wake callback was supplied, and the index of the next
`check_transmit` response to consume. -/
structure TxFutureState where
  expiry : Option Nat
  period : Duration
  wake_fn : Bool
  idx : Nat
deriving DecidableEq, Repr

/-- What one `poll` of a future does after its single check: complete with a
result, or suspend after requesting a wake — via the supplied callback with
the poll period, or an immediate self-wake when no callback was supplied. -/
inductive PollRes (ε : Type) where
  | ready (r : Except (AsyncError ε) Unit)
  | pending (wakeByCallback : Bool) (period : Duration)
deriving DecidableEq, Repr

/-- `async_transmit` (`src/nonblocking.rs`) up to the construction of
`TransmitFuture`: compute the expiry from `now` (nanoseconds) and the
timeout, apply the power override if one is set, then `start_transmit` —
all eagerly, before any poll. Returns the trace of device calls and either
the error that aborted construction or the constructed future state. -/
def async_transmit (dev : TxDevice ε) (opts : AsyncOptions) (now : Nat) :
    List (TxEvent ε) × Except (AsyncError ε) TxFutureState :=
  let expiry := opts.timeout.map (fun t => now + t.nanos)
  let fut : TxFutureState :=
    { expiry := expiry, period := opts.poll_period, wake_fn := opts.wake_fn, idx := 0 }
  match opts.power with
  | some pw =>
    match dev.power pw with
    | .error e => ([.power pw (.error e)], .error (.Inner e))
    | .ok () =>
      match dev.start with
      | .error e => ([.power pw (.ok ()), .start (.error e)], .error (.Inner e))
      | .ok () => ([.power pw (.ok ()), .start (.ok ())], .ok fut)
  | none =>
    match dev.start with
    | .error e => ([.start (.error e)], .error (.Inner e))
    | .ok () => ([.start (.ok ())], .ok fut)

/-- `TransmitFuture::poll` (`src/nonblocking.rs`): one `check_transmit`;
`true` completes with success, an error completes with `Inner`; on `false`,
complete with `Timeout` if an expiry was set and `now` is strictly past it,
otherwise request a wake (callback if supplied, else an immediate self-wake)
and suspend. Returns the outcome and the advanced future state. -/
def transmitFuturePoll (dev : TxDevice ε) (st : TxFutureState) (now : Nat) :
    PollRes ε × TxFutureState :=
  let st' := { st with idx := st.idx + 1 }
  match dev.check st.idx with
  | .error e => (.ready (.error (.Inner e)), st')
  | .ok true => (.ready (.ok ()), st')
  | .ok false =>
    match st.expiry with
    | some e =>
      if now > e then (.ready (.error .Timeout), st')
      else (.pending st.wake_fn st.period, st')
    | none => (.pending st.wake_fn st.period, st')

/-- Modelled from the spec: the spec's Operation Options for the blocking
engine list an optional power override alongside poll interval and timeout
(`BlockingOptions` in the source has no such field). -/
structure BlockingOptionsSpec where
  poll_interval : Duration
  timeout : Duration
  power : Option Int

/-- Modelled from the spec: the spec's shared blocking algorithm, whose
step 1 "optionally apply a power override" precedes the start call; the
remaining steps are the source's `do_transmit` loop. -/
def do_transmit_spec (dev : TxDevice ε) (opts : BlockingOptionsSpec) (fuel : Nat) :
    Option (List (TxEvent ε) × Except (BlockingError ε) Unit) :=
  let rest : Option (List (TxEvent ε) × Except (BlockingError ε) Unit) :=
    do_transmit dev ⟨opts.poll_interval, opts.timeout⟩ fuel
  match opts.power with
  | none => rest
  | some pw =>
    match dev.power pw with
    | .error e => some ([.power pw (.error e)], .error (.Inner e))
    | .ok () => rest.map (fun r => (.power pw (.ok ()) :: r.1, r.2))

/-- `BasicInfo` (`src/lib.rs`): rssi in dBm and link quality. -/
structure BasicInfo where
  rssi : Int
  lqi : Nat
deriving DecidableEq, Repr

/-- `MockState` (`src/mock.rs`). -/
inductive MockState where
  | Idle
  | Sleep
  | Receive
  | Receiving
  | Transmitting
deriving DecidableEq, Repr

/-- `MockError` (`src/mock.rs`). -/
inductive MockError where
  | Timeout
deriving DecidableEq, Repr

namespace Mock

/-- `Request` (`src/mock.rs`): the expected shape and arguments of one
intercepted capability call. Bytes are `Nat`s. -/
inductive Request (St Reg Ch : Type) where
  | SetState (s : St)
  | GetState
  | IsBusy
  | SetRegister (r : Reg) (v : Nat)
  | GetRegister
  | GetIrq (clear : Bool)
  | PollRssi
  | SetChannel (c : Ch)
  | SetPower (p : Int)
  | StartTransmit (data : List Nat)
  | CheckTransmit
  | StartReceive
  | CheckReceive (restart : Bool)
  | GetReceived
  | DelayNs (ns : Nat)
deriving DecidableEq, Repr

/-- `Response` (`src/mock.rs`): the canned value or error handed back. -/
inductive Response (St Inf Irq E : Type) where
  | Ok
  | State (s : St)
  | Register (v : Nat)
  | Irq (i : Irq)
  | Rssi (v : Int)
  | Received (d : List Nat) (i : Inf)
  | Bool (b : Bool)
  | Err (e : E)
deriving DecidableEq, Repr

/-- `Transaction` (`src/mock.rs`): an expected request paired with its
canned response. -/
structure Transaction (St Reg Ch Inf Irq E : Type) where
  request : Request St Reg Ch
  response : Response St Inf Irq E
deriving DecidableEq, Repr

variable {St Reg Ch Inf Irq E : Type}

/-- `Response::from(Option<E>)` (`src/mock.rs`). -/
def respOfErr : Option E → Response St Inf Irq E
  | some e => .Err e
  | none => .Ok

/-- `Transaction::set_state`. -/
def Transaction.set_state (s : St) (err : Option E) : Transaction St Reg Ch Inf Irq E :=
  ⟨.SetState s, respOfErr err⟩

/-- `Transaction::get_state`. -/
def Transaction.get_state (res : Except E St) : Transaction St Reg Ch Inf Irq E :=
  ⟨.GetState, match res with | .ok s => .State s | .error e => .Err e⟩

/-- `Transaction::is_busy`. -/
def Transaction.is_busy (res : Except E Bool) : Transaction St Reg Ch Inf Irq E :=
  ⟨.IsBusy, match res with | .ok b => .Bool b | .error e => .Err e⟩

/-- `Transaction::set_channel`. -/
def Transaction.set_channel (c : Ch) (err : Option E) : Transaction St Reg Ch Inf Irq E :=
  ⟨.SetChannel c, respOfErr err⟩

/-- `Transaction::set_power`. -/
def Transaction.set_power (p : Int) (err : Option E) : Transaction St Reg Ch Inf Irq E :=
  ⟨.SetPower p, respOfErr err⟩

/-- `Transaction::start_transmit`. -/
def Transaction.start_transmit (data : List Nat) (err : Option E) :
    Transaction St Reg Ch Inf Irq E :=
  ⟨.StartTransmit data, respOfErr err⟩

/-- `Transaction::check_transmit`. -/
def Transaction.check_transmit (res : Except E Bool) : Transaction St Reg Ch Inf Irq E :=
  ⟨.CheckTransmit, match res with | .ok b => .Bool b | .error e => .Err e⟩

/-- `Transaction::start_receive`. -/
def Transaction.start_receive (err : Option E) : Transaction St Reg Ch Inf Irq E :=
  ⟨.StartReceive, respOfErr err⟩

/-- `Transaction::check_receive`. -/
def Transaction.check_receive (restart : Bool) (res : Except E Bool) :
    Transaction St Reg Ch Inf Irq E :=
  ⟨.CheckReceive restart, match res with | .ok b => .Bool b | .error e => .Err e⟩

/-- `Transaction::get_received`. -/
def Transaction.get_received (res : Except E (List Nat × Inf)) :
    Transaction St Reg Ch Inf Irq E :=
  ⟨.GetReceived, match res with | .ok di => .Received di.1 di.2 | .error e => .Err e⟩

/-- `Transaction::get_irq`. -/
def Transaction.get_irq (clear : Bool) (res : Except E Irq) :
    Transaction St Reg Ch Inf Irq E :=
  ⟨.GetIrq clear, match res with | .ok i => .Irq i | .error e => .Err e⟩

/-- `Transaction::poll_rssi`. -/
def Transaction.poll_rssi (res : Except E Int) : Transaction St Reg Ch Inf Irq E :=
  ⟨.PollRssi, match res with | .ok v => .Rssi v | .error e => .Err e⟩

/-- `Transaction::delay_ns`. -/
def Transaction.delay_ns (ns : Nat) : Transaction St Reg Ch Inf Irq E :=
  ⟨.DelayNs ns, .Ok⟩

/-- `Generic::next` of `embedded-hal-mock` (external dependency of
`src/mock.rs`): pop the front of the expectation queue, `none` when empty. -/
def next (q : List (Transaction St Reg Ch Inf Irq E)) :
    Option (Transaction St Reg Ch Inf Irq E × List (Transaction St Reg Ch Inf Irq E)) :=
  match q with
  | [] => none
  | n :: rest => some (n, rest)

/-- `Radio::done` / `Generic::done`: succeeds exactly when the expectation
queue has been fully drained (the source asserts and panics otherwise). -/
def done (q : List (Transaction St Reg Ch Inf Irq E)) : Bool :=
  q.isEmpty

variable [DecidableEq St] [DecidableEq Reg] [DecidableEq Ch]

/-- Mock `State::set_state` (`src/mock.rs`): pop the next transaction
(`none` models the panic on an empty queue), assert the request matches,
translate the response (`none` also models the `unreachable!` arms). -/
def set_state (q : List (Transaction St Reg Ch Inf Irq E)) (s : St) :
    Option (List (Transaction St Reg Ch Inf Irq E) × Except E Unit) :=
  match next q with
  | none => none
  | some (n, rest) =>
    if n.request = Request.SetState s then
      match n.response with
      | .Ok => some (rest, .ok ())
      | .Err e => some (rest, .error e)
      | _ => none
    else none

/-- Mock `State::get_state` (`src/mock.rs`). -/
def get_state (q : List (Transaction St Reg Ch Inf Irq E)) :
    Option (List (Transaction St Reg Ch Inf Irq E) × Except E St) :=
  match next q with
  | none => none
  | some (n, rest) =>
    if n.request = Request.GetState then
      match n.response with
      | .Err e => some (rest, .error e)
      | .State s => some (rest, .ok s)
      | _ => none
    else none

/-- Mock `Busy::is_busy` (`src/mock.rs`). -/
def is_busy (q : List (Transaction St Reg Ch Inf Irq E)) :
    Option (List (Transaction St Reg Ch Inf Irq E) × Except E Bool) :=
  match next q with
  | none => none
  | some (n, rest) =>
    if n.request = Request.IsBusy then
      match n.response with
      | .Err e => some (rest, .error e)
      | .Bool b => some (rest, .ok b)
      | _ => none
    else none

/-- Mock `Channel::set_channel` (`src/mock.rs`). -/
def set_channel (q : List (Transaction St Reg Ch Inf Irq E)) (c : Ch) :
    Option (List (Transaction St Reg Ch Inf Irq E) × Except E Unit) :=
  match next q with
  | none => none
  | some (n, rest) =>
    if n.request = Request.SetChannel c then
      match n.response with
      | .Ok => some (rest, .ok ())
      | .Err e => some (rest, .error e)
      | _ => none
    else none

/-- Mock `Power::set_power` (`src/mock.rs`). -/
def set_power (q : List (Transaction St Reg Ch Inf Irq E)) (p : Int) :
    Option (List (Transaction St Reg Ch Inf Irq E) × Except E Unit) :=
  match next q with
  | none => none
  | some (n, rest) =>
    if n.request = Request.SetPower p then
      match n.response with
      | .Ok => some (rest, .ok ())
      | .Err e => some (rest, .error e)
      | _ => none
    else none

/-- Mock `Rssi::poll_rssi` (`src/mock.rs`). -/
def poll_rssi (q : List (Transaction St Reg Ch Inf Irq E)) :
    Option (List (Transaction St Reg Ch Inf Irq E) × Except E Int) :=
  match next q with
  | none => none
  | some (n, rest) =>
    if n.request = Request.PollRssi then
      match n.response with
      | .Rssi v => some (rest, .ok v)
      | .Err e => some (rest, .error e)
      | _ => none
    else none

/-- Mock `Interrupts::get_interrupts` (`src/mock.rs`). -/
def get_interrupts (q : List (Transaction St Reg Ch Inf Irq E)) (clear : Bool) :
    Option (List (Transaction St Reg Ch Inf Irq E) × Except E Irq) :=
  match next q with
  | none => none
  | some (n, rest) =>
    if n.request = Request.GetIrq clear then
      match n.response with
      | .Irq v => some (rest, .ok v)
      | .Err e => some (rest, .error e)
      | _ => none
    else none

/-- Mock `Transmit::start_transmit` (`src/mock.rs`): the actual byte
sequence must equal the recorded one, by value equality. -/
def start_transmit (q : List (Transaction St Reg Ch Inf Irq E)) (data : List Nat) :
    Option (List (Transaction St Reg Ch Inf Irq E) × Except E Unit) :=
  match next q with
  | none => none
  | some (n, rest) =>
    if n.request = Request.StartTransmit data then
      match n.response with
      | .Ok => some (rest, .ok ())
      | .Err e => some (rest, .error e)
      | _ => none
    else none

/-- Mock `Transmit::check_transmit` (`src/mock.rs`). -/
def check_transmit (q : List (Transaction St Reg Ch Inf Irq E)) :
    Option (List (Transaction St Reg Ch Inf Irq E) × Except E Bool) :=
  match next q with
  | none => none
  | some (n, rest) =>
    if n.request = Request.CheckTransmit then
      match n.response with
      | .Bool v => some (rest, .ok v)
      | .Err e => some (rest, .error e)
      | _ => none
    else none

/-- Mock `Receive::start_receive` (`src/mock.rs`). -/
def start_receive (q : List (Transaction St Reg Ch Inf Irq E)) :
    Option (List (Transaction St Reg Ch Inf Irq E) × Except E Unit) :=
  match next q with
  | none => none
  | some (n, rest) =>
    if n.request = Request.StartReceive then
      match n.response with
      | .Ok => some (rest, .ok ())
      | .Err e => some (rest, .error e)
      | _ => none
    else none

/-- Mock `Receive::check_receive` (`src/mock.rs`). -/
def check_receive (q : List (Transaction St Reg Ch Inf Irq E)) (restart : Bool) :
    Option (List (Transaction St Reg Ch Inf Irq E) × Except E Bool) :=
  match next q with
  | none => none
  | some (n, rest) =>
    if n.request = Request.CheckReceive restart then
      match n.response with
      | .Bool v => some (rest, .ok v)
      | .Err e => some (rest, .error e)
      | _ => none
    else none

/-- Mock `Receive::get_received` (`src/mock.rs`): on a `Received(d, i)`
response, `buff[..d.len()].copy_from_slice(&d)` writes `d` over the buffer
prefix — and panics (`none`) when the buffer is shorter than `d`. Returns
the remaining queue, the updated buffer, and `(d.len(), i)`. -/
def get_received (q : List (Transaction St Reg Ch Inf Irq E)) (buff : List Nat) :
    Option (List (Transaction St Reg Ch Inf Irq E) × List Nat × Except E (Nat × Inf)) :=
  match next q with
  | none => none
  | some (n, rest) =>
    if n.request = Request.GetReceived then
      match n.response with
      | .Received d i =>
        if d.length ≤ buff.length then
          some (rest, d ++ buff.drop d.length, .ok (d.length, i))
        else none
      | .Err e => some (rest, buff, .error e)
      | _ => none
    else none

/-- Mock `DelayNs::delay_ns` (`src/mock.rs`): asserts only the request; the
canned response is not inspected at all. -/
def delay_ns (q : List (Transaction St Reg Ch Inf Irq E)) (ns : Nat) :
    Option (List (Transaction St Reg Ch Inf Irq E)) :=
  match next q with
  | none => none
  | some (n, rest) =>
    if n.request = Request.DelayNs ns then some rest else none

/-- One capability call a caller can issue against the mock, with its
actual arguments, covering every trait the mock implements. -/
inductive Call (St Ch : Type) where
  | setState (s : St)
  | getState
  | isBusy
  | setChannel (c : Ch)
  | setPower (p : Int)
  | startTransmit (data : List Nat)
  | checkTransmit
  | startReceive
  | checkReceive (restart : Bool)
  | getReceived (buff : List Nat)
  | getIrq (clear : Bool)
  | pollRssi
  | delayNs (ns : Nat)
deriving DecidableEq, Repr

/-- The request shape the mock asserts for a given actual call — exactly
the `Request` value each method of `src/mock.rs` builds from its
arguments. -/
def reqOf : Call St Ch → Request St Reg Ch
  | .setState s => .SetState s
  | .getState => .GetState
  | .isBusy => .IsBusy
  | .setChannel c => .SetChannel c
  | .setPower p => .SetPower p
  | .startTransmit d => .StartTransmit d
  | .checkTransmit => .CheckTransmit
  | .startReceive => .StartReceive
  | .checkReceive r => .CheckReceive r
  | .getReceived _ => .GetReceived
  | .getIrq c => .GetIrq c
  | .pollRssi => .PollRssi
  | .delayNs n => .DelayNs n

/-- A capability call's return value, uniformly. -/
inductive Reply (St Inf Irq E : Type) where
  | unit
  | bool (b : Bool)
  | state (s : St)
  | rssi (v : Int)
  | irq (i : Irq)
  | received (n : Nat) (info : Inf) (buff : List Nat)
  | err (e : E)
deriving DecidableEq, Repr

/-- How each kind of call translates the head transaction's canned response
into its return value: `none` for the responses its `unreachable!` arm
rejects, and for the buffer-overrun panic of `get_received`. -/
def translate : Call St Ch → Response St Inf Irq E → Option (Reply St Inf Irq E)
  | .setState _, .Ok => some .unit
  | .setState _, .Err e => some (.err e)
  | .getState, .State s => some (.state s)
  | .getState, .Err e => some (.err e)
  | .isBusy, .Bool b => some (.bool b)
  | .isBusy, .Err e => some (.err e)
  | .setChannel _, .Ok => some .unit
  | .setChannel _, .Err e => some (.err e)
  | .setPower _, .Ok => some .unit
  | .setPower _, .Err e => some (.err e)
  | .startTransmit _, .Ok => some .unit
  | .startTransmit _, .Err e => some (.err e)
  | .checkTransmit, .Bool b => some (.bool b)
  | .checkTransmit, .Err e => some (.err e)
  | .startReceive, .Ok => some .unit
  | .startReceive, .Err e => some (.err e)
  | .checkReceive _, .Bool b => some (.bool b)
  | .checkReceive _, .Err e => some (.err e)
  | .getReceived buff, .Received d i =>
    if d.length ≤ buff.length then some (.received d.length i (d ++ buff.drop d.length))
    else none
  | .getReceived _, .Err e => some (.err e)
  | .getIrq _, .Irq v => some (.irq v)
  | .getIrq _, .Err e => some (.err e)
  | .pollRssi, .Rssi v => some (.rssi v)
  | .pollRssi, .Err e => some (.err e)
  | .delayNs _, _ => some .unit
  | _, _ => none

/-- Dispatch of an actual call to the corresponding mock method. -/
def doCall (call : Call St Ch) (q : List (Transaction St Reg Ch Inf Irq E)) :
    Option (List (Transaction St Reg Ch Inf Irq E) × Reply St Inf Irq E) :=
  match call with
  | .setState s => (set_state q s).map (fun r => (r.1, replyOfUnit r.2))
  | .getState => (get_state q).map (fun r => (r.1, replyOfState r.2))
  | .isBusy => (is_busy q).map (fun r => (r.1, replyOfBool r.2))
  | .setChannel c => (set_channel q c).map (fun r => (r.1, replyOfUnit r.2))
  | .setPower p => (set_power q p).map (fun r => (r.1, replyOfUnit r.2))
  | .startTransmit d => (start_transmit q d).map (fun r => (r.1, replyOfUnit r.2))
  | .checkTransmit => (check_transmit q).map (fun r => (r.1, replyOfBool r.2))
  | .startReceive => (start_receive q).map (fun r => (r.1, replyOfUnit r.2))
  | .checkReceive rs => (check_receive q rs).map (fun r => (r.1, replyOfBool r.2))
  | .getReceived buff =>
    (get_received q buff).map (fun r =>
      (r.1, match r.2.2 with
            | .ok ni => .received ni.1 ni.2 r.2.1
            | .error e => .err e))
  | .getIrq c => (get_interrupts q c).map (fun r => (r.1, replyOfIrq r.2))
  | .pollRssi => (poll_rssi q).map (fun r => (r.1, replyOfRssi r.2))
  | .delayNs n => (delay_ns q n).map (fun rest => (rest, .unit))
where
  replyOfUnit : Except E Unit → Reply St Inf Irq E
    | .ok () => .unit
    | .error e => .err e
  replyOfBool : Except E Bool → Reply St Inf Irq E
    | .ok b => .bool b
    | .error e => .err e
  replyOfState : Except E St → Reply St Inf Irq E
    | .ok s => .state s
    | .error e => .err e
  replyOfIrq : Except E Irq → Reply St Inf Irq E
    | .ok i => .irq i
    | .error e => .err e
  replyOfRssi : Except E Int → Reply St Inf Irq E
    | .ok v => .rssi v
    | .error e => .err e

/-- Run a sequence of calls against the mock, failing (test abort) as soon
as any single call fails. -/
def runCalls : List (Call St Ch) → List (Transaction St Reg Ch Inf Irq E) →
    Option (List (Transaction St Reg Ch Inf Irq E))
  | [], q => some q
  | c :: cs, q =>
    match doCall c q with
    | none => none
    | some (q', _) => runCalls cs q'

end Mock

/-- The concrete mock radio type (`MockRadio` in `src/mock.rs`): states are
`MockState`, registers and channels and IRQs are small integers, packet info
is `BasicInfo`, errors are `MockError`. -/
abbrev MockTransaction := Mock.Transaction MockState Nat Nat BasicInfo Nat MockError

/-- Concrete options: 1us poll interval, 100us timeout. -/
def optsA : BlockingOptions := ⟨Duration.from_micros 1, Duration.from_micros 100⟩

/-- Concrete options: 1us poll interval, 2us timeout. -/
def optsSmall : BlockingOptions := ⟨Duration.from_micros 1, Duration.from_micros 2⟩

/-- Concrete options with a sub-microsecond poll interval (500ns, which
`as_micros` truncates to zero). -/
def optsSub : BlockingOptions := ⟨⟨500⟩, Duration.from_micros 100⟩

/-- Concrete transmit device: `check_transmit` is false exactly 50 times
and then true; `start_transmit` and `set_power` succeed. -/
def devK50 : TxDevice MockError :=
  ⟨.ok (), fun i => .ok (decide (50 ≤ i)), fun _ => .ok ()⟩

/-- Concrete transmit device whose `check_transmit` never returns true. -/
def devTxFalse : TxDevice MockError :=
  ⟨.ok (), fun _ => .ok false, fun _ => .ok ()⟩

/-- Concrete transmit device whose first `check_transmit` reports a device
error. -/
def devTxErr : TxDevice MockError :=
  ⟨.ok (), fun _ => .error .Timeout, fun _ => .ok ()⟩

/-- Concrete transmit device that completes on the very first check. -/
def devTxNow : TxDevice MockError :=
  ⟨.ok (), fun _ => .ok true, fun _ => .ok ()⟩

/-- Concrete receive device: one false check, then true, then a 2-byte
packet with rssi -81. -/
def devRx : RxDevice MockError BasicInfo :=
  ⟨.ok (), fun i => .ok (decide (1 ≤ i)), .ok (2, ⟨-81, 0⟩)⟩

/-- Concrete receive device whose `check_receive` never returns true. -/
def devRxFalse : RxDevice MockError BasicInfo :=
  ⟨.ok (), fun _ => .ok false, .ok (0, ⟨0, 0⟩)⟩

/-- Concrete state device: `get_state` reports `Sleep` once, then `Idle`. -/
def devSt : StDevice MockState MockError :=
  ⟨.ok (), fun i => .ok (if 1 ≤ i then .Idle else .Sleep)⟩

/-- Concrete state device stuck in `Sleep` forever. -/
def devStStuck : StDevice MockState MockError :=
  ⟨.ok (), fun _ => .ok .Sleep⟩

/-- Concrete async options carrying a power override of 10 dBm and a 100us
timeout, with no wake callback. -/
def aOpts : AsyncOptions :=
  ⟨some 10, some (Duration.from_micros 100), Duration.from_micros 1, false⟩

/-- Concrete spec-shaped blocking options carrying a power override of
10 dBm (the source's `BlockingOptions` cannot express this). -/
def sOpts : BlockingOptionsSpec := ⟨Duration.from_micros 1, Duration.from_micros 100, some 10⟩

/-- For a device whose checks are false exactly until index `k`, the
transmit polling loop started at check index `i ≤ k` with counter `c ≤ t`
succeeds precisely when the `k - i` remaining poll-interval increments keep
the counter within the timeout, and otherwise reports `Timeout`. -/
theorem transmitLoop_falseUntil {ε : Type} (dev : TxDevice ε) (k p t : Nat)
    (hck : ∀ j, j < k → dev.check j = .ok false) (hk : dev.check k = .ok true) :
    ∀ fuel i c, i ≤ k → c ≤ t → k - i + 1 ≤ fuel →
      (transmitLoop dev p t c i fuel).map Prod.snd =
        some (if c + (k - i) * p ≤ t then .ok () else .error .Timeout) := by
  intro fuel
  induction fuel with
  | zero => intro i c _ _ hfuel; omega
  | succ f ih =>
    intro i c hik hct hfuel
    rcases Nat.lt_or_ge i k with hlt | hge
    · have hc := hck i hlt
      have hrem : 1 ≤ k - i := by omega
      have hmul : p ≤ (k - i) * p := Nat.le_mul_of_pos_left p (by omega)
      by_cases hto : c + p > t
      · have hcond : ¬ (c + (k - i) * p ≤ t) := by omega
        simp [transmitLoop, hc, hto, hcond]
      · have harith : c + p + (k - (i + 1)) * p = c + (k - i) * p := by
          have h1 : k - i = (k - (i + 1)) + 1 := by omega
          rw [h1, Nat.succ_mul]
          omega
        have ihv := ih (i + 1) (c + p) (by omega) (by omega) (by omega)
        simp only [transmitLoop, hc, if_neg hto]
        rw [Option.map_map]
        cases h : transmitLoop dev p t (c + p) (i + 1) f with
        | none => rw [h] at ihv; simp at ihv
        | some r =>
          rw [h] at ihv
          simp only [Option.map_some'] at ihv ⊢
          rw [← harith]
          exact ihv
    · have hik' : i = k := by omega
      subst hik'
      simp [transmitLoop, hk, Nat.sub_self, hct]

/-- C1: for every poll interval `p`, timeout `t`, and device whose
`check_transmit` returns false exactly `k` times and then true, the blocking
`do_transmit` succeeds iff `k·p ≤ t` in whole microseconds (the counter
grows by `p` after each false check) and returns `Timeout` otherwise. -/
theorem c1_do_transmit_success_iff_budget {ε : Type} (dev : TxDevice ε) (k : Nat)
    (opts : BlockingOptions) (fuel : Nat)
    (hstart : dev.start = .ok ())
    (hck : ∀ j, j < k → dev.check j = .ok false)
    (hk : dev.check k = .ok true)
    (hfuel : k + 1 ≤ fuel) :
    (do_transmit dev opts fuel).map Prod.snd =
      some (if k * opts.poll_interval.as_micros ≤ opts.timeout.as_micros
            then .ok () else .error .Timeout) := by
  have h := transmitLoop_falseUntil dev k opts.poll_interval.as_micros
    opts.timeout.as_micros hck hk fuel 0 0 (Nat.zero_le k) (Nat.zero_le _) (by omega)
  unfold do_transmit
  rw [hstart]
  cases h2 : transmitLoop dev opts.poll_interval.as_micros opts.timeout.as_micros 0 0 fuel with
  | none => rw [h2] at h; simp at h
  | some r =>
    rw [h2] at h
    simp only [Option.map_some'] at h ⊢
    simpa using h

/-- Witness for C1 at scenario A: 1us poll interval, 100us timeout, 50 false
checks then true — `do_transmit` succeeds. -/
theorem c1_do_transmit_success_iff_budget_witness :
    devK50.start = .ok () ∧
    (∀ j, j < 50 → devK50.check j = .ok false) ∧
    devK50.check 50 = .ok true ∧
    50 + 1 ≤ 51 ∧
    (do_transmit devK50 optsA 51).map Prod.snd = some (.ok ()) := by
  refine ⟨rfl, by decide, by decide, by omega, ?_⟩
  have h := c1_do_transmit_success_iff_budget devK50 50 optsA 51 rfl
    (by decide) (by decide) (by omega)
  rw [h]
  decide

/-- Mapping a result-preserving trace extension and then projecting the
result is just projecting the result (one prepended event). -/
theorem map_snd_cons1 {α β : Type} (x : Option (List α × β)) (a : α) :
    (x.map (fun r => (a :: r.1, r.2))).map Prod.snd = x.map Prod.snd := by
  cases x <;> rfl

/-- Mapping a result-preserving trace extension and then projecting the
result is just projecting the result (two prepended events). -/
theorem map_snd_cons2 {α β : Type} (x : Option (List α × β)) (a b : α) :
    (x.map (fun r => (a :: b :: r.1, r.2))).map Prod.snd = x.map Prod.snd := by
  cases x <;> rfl

/-- `Except.map` on an error. -/
theorem exMap_error {ε α β : Type} (f : α → β) (e : ε) :
    Except.map f (.error e) = (.error e : Except ε β) := rfl

/-- `Except.map` on a success. -/
theorem exMap_ok {ε α β : Type} (f : α → β) (a : α) :
    Except.map f (.ok a) = (.ok (f a) : Except ε β) := rfl

/-- The transmit polling loop consults only the device's check oracle. -/
theorem transmitLoop_congr_check {ε : Type} (d1 d2 : TxDevice ε)
    (h : ∀ j, d1.check j = d2.check j) (p t : Nat) :
    ∀ fuel c i, transmitLoop d1 p t c i fuel = transmitLoop d2 p t c i fuel := by
  intro fuel
  induction fuel with
  | zero => intro c i; rfl
  | succ f ih =>
    intro c i
    simp only [transmitLoop]
    rw [h i]
    cases hc : d2.check i with
    | error e => rfl
    | ok b =>
      cases b with
      | true => rfl
      | false =>
        by_cases hto : c + p > t
        · simp [hto]
        · simp only [if_neg hto]
          rw [ih (c + p) (i + 1)]

/-- The `set_state_checked` polling loop computes exactly the result of the
`do_transmit` polling loop over the derived device whose check is
"`get_state` returned the target". -/
theorem stateLoop_eq_transmitLoop {σ ε : Type} [DecidableEq σ]
    (dev : StDevice σ ε) (target : σ) (p t : Nat) :
    ∀ fuel c i, (stateLoop dev target p t c i fuel).map Prod.snd =
      (transmitLoop
        ⟨dev.set, fun j => (dev.get j).map (fun s => decide (target = s)), fun _ => .ok ()⟩
        p t c i fuel).map Prod.snd := by
  intro fuel
  induction fuel with
  | zero => intro c i; rfl
  | succ f ih =>
    intro c i
    cases hg : dev.get i with
    | error e => simp [stateLoop, transmitLoop, hg, exMap_error]
    | ok s =>
      by_cases hts : target = s
      · simp [stateLoop, transmitLoop, hg, exMap_ok, hts]
      · by_cases hto : c + p > t
        · simp [stateLoop, transmitLoop, hg, exMap_ok, hts, hto]
        · simp only [stateLoop, transmitLoop, hg, exMap_ok, decide_eq_false hts,
            if_neg hts, if_neg hto]
          rw [map_snd_cons2, map_snd_cons2]
          exact ih (c + p) (i + 1)

/-- When the `set_state_checked` loop succeeds, the last event of its trace
is a `get_state` call that returned exactly the target state. -/
theorem stateLoop_ok_last {σ ε : Type} [DecidableEq σ]
    (dev : StDevice σ ε) (target : σ) (p t : Nat) :
    ∀ fuel c i tr, stateLoop dev target p t c i fuel = some (tr, .ok ()) →
      tr.getLast? = some (.get (.ok target)) := by
  intro fuel
  induction fuel with
  | zero => intro c i tr h; simp [stateLoop] at h
  | succ f ih =>
    intro c i tr h
    cases hg : dev.get i with
    | error e => simp [stateLoop, hg] at h
    | ok s =>
      by_cases hts : target = s
      · simp only [stateLoop, hg, if_pos hts, Option.some_inj, Prod.mk.injEq] at h
        obtain ⟨htr, -⟩ := h
        rw [← htr, ← hts]
        rfl
      · by_cases hto : c + p > t
        · simp [stateLoop, hg, if_neg hts, if_pos hto] at h
        · simp only [stateLoop, hg, if_neg hts, if_neg hto] at h
          cases hx : stateLoop dev target p t (c + p) (i + 1) f with
          | none => rw [hx] at h; simp at h
          | some r =>
            rw [hx] at h
            simp only [Option.map_some', Option.some_inj, Prod.mk.injEq] at h
            obtain ⟨htr, hres⟩ := h
            have hr : stateLoop dev target p t (c + p) (i + 1) f = some (r.1, .ok ()) := by
              rw [hx, ← hres]
            have hlast := ih (c + p) (i + 1) r.1 hr
            cases hr1 : r.1 with
            | nil => rw [hr1] at hlast; simp at hlast
            | cons x xs =>
              rw [← htr, hr1]
              rw [hr1] at hlast
              simpa using hlast

/-- C7: `set_state_checked` implements exactly the elapsed-time accumulation
and timeout rule of `do_transmit` — its result equals that of `do_transmit`
run over the derived device whose check is "`get_state` returned a state
equal to the target" — and it succeeds only when `get_state` returned a
state exactly equal (value equality) to the requested target. -/
theorem c7_set_state_checked_same_rule {σ ε : Type} [DecidableEq σ]
    (dev : StDevice σ ε) (target : σ) (opts : BlockingOptions) (fuel : Nat) :
    ((set_state_checked dev target opts fuel).map Prod.snd =
      (do_transmit
        ⟨dev.set, fun j => (dev.get j).map (fun s => decide (target = s)), fun _ => .ok ()⟩
        opts fuel).map Prod.snd) ∧
    (∀ tr, set_state_checked dev target opts fuel = some (tr, .ok ()) →
      tr.getLast? = some (.get (.ok target))) := by
  constructor
  · unfold set_state_checked do_transmit
    cases hs : dev.set with
    | error e => rfl
    | ok u =>
      rw [map_snd_cons1, map_snd_cons1]
      have hcongr := transmitLoop_congr_check
        ⟨.ok u, fun j => (dev.get j).map (fun s => decide (target = s)), fun _ => .ok ()⟩
        ⟨dev.set, fun j => (dev.get j).map (fun s => decide (target = s)), fun _ => .ok ()⟩
        (fun _ => rfl) opts.poll_interval.as_micros opts.timeout.as_micros fuel 0 0
      rw [hcongr]
      exact stateLoop_eq_transmitLoop dev target _ _ fuel 0 0
  · intro tr h
    unfold set_state_checked at h
    cases hs : dev.set with
    | error e => rw [hs] at h; simp at h
    | ok u =>
      rw [hs] at h
      cases hx : stateLoop dev target opts.poll_interval.as_micros
          opts.timeout.as_micros 0 0 fuel with
      | none => rw [hx] at h; simp at h
      | some r =>
        rw [hx] at h
        simp only [Option.map_some', Option.some_inj, Prod.mk.injEq] at h
        obtain ⟨htr, hres⟩ := h
        have hr : stateLoop dev target opts.poll_interval.as_micros
            opts.timeout.as_micros 0 0 fuel = some (r.1, .ok ()) := by
          rw [hx, ← hres]
        have hlast := stateLoop_ok_last dev target _ _ fuel 0 0 r.1 hr
        cases hr1 : r.1 with
        | nil => rw [hr1] at hlast; simp at hlast
        | cons x xs =>
          rw [← htr, hr1]
          rw [hr1] at hlast
          simpa using hlast

/-- Witness for C7: a device that reports `Sleep` once and then `Idle`
succeeds for target `Idle`, and the final `get_state` of its trace returned
exactly `Idle`. -/
theorem c7_set_state_checked_same_rule_witness :
    set_state_checked devSt .Idle optsA 3 =
      some ([.set (.ok ()), .get (.ok .Sleep), .delay 1, .get (.ok .Idle)], .ok ()) ∧
    ([.set (.ok ()), .get (.ok .Sleep), .delay 1,
        .get (.ok (.Idle : MockState))] : List (StEvent MockState MockError)).getLast? =
      some (.get (.ok .Idle)) := by
  refine ⟨by decide, ?_⟩
  exact (c7_set_state_checked_same_rule devSt .Idle optsA 3).2 _ (by decide)

/-- Each run of the transmit polling loop either ends in a single device
error — its last event — and returns it wrapped as `Inner`, or makes no
erroring device call at all and does not return `Inner`. -/
theorem transmitLoop_err_or_clean {ε : Type} (dev : TxDevice ε) (p t : Nat) :
    ∀ fuel c i tr res, transmitLoop dev p t c i fuel = some (tr, res) →
      (∃ pre ev e, tr = pre ++ [ev] ∧ TxEvent.err ev = some e ∧
        (∀ x ∈ pre, TxEvent.err x = none) ∧ res = .error (.Inner e)) ∨
      ((∀ x ∈ tr, TxEvent.err x = none) ∧ ∀ e, res ≠ .error (.Inner e)) := by
  intro fuel
  induction fuel with
  | zero => intro c i tr res h; simp [transmitLoop] at h
  | succ f ih =>
    intro c i tr res h
    cases hc : dev.check i with
    | error e =>
      simp only [transmitLoop, hc, Option.some_inj, Prod.mk.injEq] at h
      obtain ⟨htr, hres⟩ := h
      exact Or.inl ⟨[], .check (.error e), e, by simp [← htr], rfl, by simp, hres.symm⟩
    | ok b =>
      cases b with
      | true =>
        simp only [transmitLoop, hc, Option.some_inj, Prod.mk.injEq] at h
        obtain ⟨htr, hres⟩ := h
        refine Or.inr ⟨?_, ?_⟩
        · intro x hx; rw [← htr] at hx; simp at hx; rw [hx]; rfl
        · intro e he; rw [← hres] at he; exact Except.noConfusion he
      | false =>
        by_cases hto : c + p > t
        · simp only [transmitLoop, hc, if_pos hto, Option.some_inj, Prod.mk.injEq] at h
          obtain ⟨htr, hres⟩ := h
          refine Or.inr ⟨?_, ?_⟩
          · intro x hx; rw [← htr] at hx; simp at hx; rw [hx]; rfl
          · intro e he
            rw [← hres] at he
            exact BlockingError.noConfusion (Except.error.inj he)
        · simp only [transmitLoop, hc, if_neg hto] at h
          cases hx : transmitLoop dev p t (c + p) (i + 1) f with
          | none => rw [hx] at h; simp at h
          | some r =>
            rw [hx] at h
            simp only [Option.map_some', Option.some_inj, Prod.mk.injEq] at h
            obtain ⟨htr, hres⟩ := h
            have hr : transmitLoop dev p t (c + p) (i + 1) f = some (r.1, res) := by
              rw [hx, ← hres]
            rcases ih (c + p) (i + 1) r.1 res hr with
              ⟨pre, ev, e, h1, h2, h3, h4⟩ | ⟨hclean, hne⟩
            · refine Or.inl ⟨.check (.ok false) :: .delay (p % 4294967296) :: pre,
                ev, e, ?_, h2, ?_, h4⟩
              · rw [← htr, h1]; rfl
              · intro x hx'
                rcases List.mem_cons.mp hx' with hx1 | hx'
                · rw [hx1]; rfl
                rcases List.mem_cons.mp hx' with hx2 | hx'
                · rw [hx2]; rfl
                · exact h3 x hx'
            · refine Or.inr ⟨?_, hne⟩
              intro x hx'
              rw [← htr] at hx'
              rcases List.mem_cons.mp hx' with hx1 | hx'
              · rw [hx1]; rfl
              rcases List.mem_cons.mp hx' with hx2 | hx'
              · rw [hx2]; rfl
              · exact hclean x hx'

/-- Receive analogue of `transmitLoop_err_or_clean`: a run of the receive
polling loop either ends at a single erroring device call, wrapped as
`Inner`, or made no erroring call and does not return `Inner`. -/
theorem receiveLoop_err_or_clean {ε ι : Type} (dev : RxDevice ε ι) (p t : Nat) :
    ∀ fuel c i tr res, receiveLoop dev p t c i fuel = some (tr, res) →
      (∃ pre ev e, tr = pre ++ [ev] ∧ RxEvent.err ev = some e ∧
        (∀ x ∈ pre, RxEvent.err x = none) ∧ res = .error (.Inner e)) ∨
      ((∀ x ∈ tr, RxEvent.err x = none) ∧ ∀ e, res ≠ .error (.Inner e)) := by
  intro fuel
  induction fuel with
  | zero => intro c i tr res h; simp [receiveLoop] at h
  | succ f ih =>
    intro c i tr res h
    cases hc : dev.check i with
    | error e =>
      simp only [receiveLoop, hc, Option.some_inj, Prod.mk.injEq] at h
      obtain ⟨htr, hres⟩ := h
      exact Or.inl ⟨[], .check true (.error e), e, by simp [← htr], rfl, by simp, hres.symm⟩
    | ok b =>
      cases b with
      | true =>
        cases hf : dev.fetch with
        | error e =>
          simp only [receiveLoop, hc, hf, Option.some_inj, Prod.mk.injEq] at h
          obtain ⟨htr, hres⟩ := h
          refine Or.inl ⟨[.check true (.ok true)], .fetch (.error e), e, ?_, rfl, ?_, hres.symm⟩
          · rw [← htr]; rfl
          · intro x hx; simp at hx; rw [hx]; rfl
        | ok ni =>
          simp only [receiveLoop, hc, hf, Option.some_inj, Prod.mk.injEq] at h
          obtain ⟨htr, hres⟩ := h
          refine Or.inr ⟨?_, ?_⟩
          · intro x hx
            rw [← htr] at hx
            rcases List.mem_cons.mp hx with hx1 | hx'
            · rw [hx1]; rfl
            · simp at hx'; rw [hx']; rfl
          · intro e he; rw [← hres] at he; exact Except.noConfusion he
      | false =>
        by_cases hto : c + p > t
        · simp only [receiveLoop, hc, if_pos hto, Option.some_inj, Prod.mk.injEq] at h
          obtain ⟨htr, hres⟩ := h
          refine Or.inr ⟨?_, ?_⟩
          · intro x hx; rw [← htr] at hx; simp at hx; rw [hx]; rfl
          · intro e he
            rw [← hres] at he
            exact BlockingError.noConfusion (Except.error.inj he)
        · simp only [receiveLoop, hc, if_neg hto] at h
          cases hx : receiveLoop dev p t (c + p) (i + 1) f with
          | none => rw [hx] at h; simp at h
          | some r =>
            rw [hx] at h
            simp only [Option.map_some', Option.some_inj, Prod.mk.injEq] at h
            obtain ⟨htr, hres⟩ := h
            have hr : receiveLoop dev p t (c + p) (i + 1) f = some (r.1, res) := by
              rw [hx, ← hres]
            rcases ih (c + p) (i + 1) r.1 res hr with
              ⟨pre, ev, e, h1, h2, h3, h4⟩ | ⟨hclean, hne⟩
            · refine Or.inl ⟨.check true (.ok false) :: .delay (p % 4294967296) :: pre,
                ev, e, ?_, h2, ?_, h4⟩
              · rw [← htr, h1]; rfl
              · intro x hx'
                rcases List.mem_cons.mp hx' with hx1 | hx'
                · rw [hx1]; rfl
                rcases List.mem_cons.mp hx' with hx2 | hx'
                · rw [hx2]; rfl
                · exact h3 x hx'
            · refine Or.inr ⟨?_, hne⟩
              intro x hx'
              rw [← htr] at hx'
              rcases List.mem_cons.mp hx' with hx1 | hx'
              · rw [hx1]; rfl
              rcases List.mem_cons.mp hx' with hx2 | hx'
              · rw [hx2]; rfl
              · exact hclean x hx'

/-- State analogue of `transmitLoop_err_or_clean` for the
`set_state_checked` polling loop. -/
theorem stateLoop_err_or_clean {σ ε : Type} [DecidableEq σ]
    (dev : StDevice σ ε) (target : σ) (p t : Nat) :
    ∀ fuel c i tr res, stateLoop dev target p t c i fuel = some (tr, res) →
      (∃ pre ev e, tr = pre ++ [ev] ∧ StEvent.err ev = some e ∧
        (∀ x ∈ pre, StEvent.err x = none) ∧ res = .error (.Inner e)) ∨
      ((∀ x ∈ tr, StEvent.err x = none) ∧ ∀ e, res ≠ .error (.Inner e)) := by
  intro fuel
  induction fuel with
  | zero => intro c i tr res h; simp [stateLoop] at h
  | succ f ih =>
    intro c i tr res h
    cases hg : dev.get i with
    | error e =>
      simp only [stateLoop, hg, Option.some_inj, Prod.mk.injEq] at h
      obtain ⟨htr, hres⟩ := h
      exact Or.inl ⟨[], .get (.error e), e, by simp [← htr], rfl, by simp, hres.symm⟩
    | ok s =>
      by_cases hts : target = s
      · simp only [stateLoop, hg, if_pos hts, Option.some_inj, Prod.mk.injEq] at h
        obtain ⟨htr, hres⟩ := h
        refine Or.inr ⟨?_, ?_⟩
        · intro x hx; rw [← htr] at hx; simp at hx; rw [hx]; rfl
        · intro e he; rw [← hres] at he; exact Except.noConfusion he
      · by_cases hto : c + p > t
        · simp only [stateLoop, hg, if_neg hts, if_pos hto, Option.some_inj,
            Prod.mk.injEq] at h
          obtain ⟨htr, hres⟩ := h
          refine Or.inr ⟨?_, ?_⟩
          · intro x hx; rw [← htr] at hx; simp at hx; rw [hx]; rfl
          · intro e he
            rw [← hres] at he
            exact BlockingError.noConfusion (Except.error.inj he)
        · simp only [stateLoop, hg, if_neg hts, if_neg hto] at h
          cases hx : stateLoop dev target p t (c + p) (i + 1) f with
          | none => rw [hx] at h; simp at h
          | some r =>
            rw [hx] at h
            simp only [Option.map_some', Option.some_inj, Prod.mk.injEq] at h
            obtain ⟨htr, hres⟩ := h
            have hr : stateLoop dev target p t (c + p) (i + 1) f = some (r.1, res) := by
              rw [hx, ← hres]
            rcases ih (c + p) (i + 1) r.1 res hr with
              ⟨pre, ev, e, h1, h2, h3, h4⟩ | ⟨hclean, hne⟩
            · refine Or.inl ⟨.get (.ok s) :: .delay (p % 4294967296) :: pre,
                ev, e, ?_, h2, ?_, h4⟩
              · rw [← htr, h1]; rfl
              · intro x hx'
                rcases List.mem_cons.mp hx' with hx1 | hx'
                · rw [hx1]; rfl
                rcases List.mem_cons.mp hx' with hx2 | hx'
                · rw [hx2]; rfl
                · exact h3 x hx'
            · refine Or.inr ⟨?_, hne⟩
              intro x hx'
              rw [← htr] at hx'
              rcases List.mem_cons.mp hx' with hx1 | hx'
              · rw [hx1]; rfl
              rcases List.mem_cons.mp hx' with hx2 | hx'
              · rw [hx2]; rfl
              · exact hclean x hx'

/-- From the "trailing error or clean" disjunction, extract the two facts a
caller cares about: an erroring device call forces the `Inner` result and is
the final call, and a `Timeout` result implies no device call errored. -/
theorem errOrClean_elim {α ε ρ : Type} (errf : α → Option ε) (tr : List α)
    (res : Except (BlockingError ε) ρ)
    (D : (∃ pre ev e, tr = pre ++ [ev] ∧ errf ev = some e ∧
            (∀ x ∈ pre, errf x = none) ∧ res = .error (.Inner e)) ∨
         ((∀ x ∈ tr, errf x = none) ∧ ∀ e, res ≠ .error (.Inner e))) :
    (∀ ev e, ev ∈ tr → errf ev = some e →
      res = .error (.Inner e) ∧ ∃ pre, tr = pre ++ [ev] ∧ ∀ x ∈ pre, errf x = none) ∧
    (res = .error .Timeout → ∀ ev ∈ tr, errf ev = none) := by
  constructor
  · intro ev e hev herr
    rcases D with ⟨pre, ev₀, e₀, htr, herr₀, hclean, hres⟩ | ⟨hclean, hne⟩
    · subst htr
      rcases List.mem_append.mp hev with hpre | hev0
      · rw [hclean ev hpre] at herr; exact Option.noConfusion herr
      · have hev₀ : ev = ev₀ := by simpa using hev0
        subst hev₀
        rw [herr₀] at herr
        have he : e₀ = e := Option.some_inj.mp herr
        subst he
        exact ⟨hres, pre, rfl, hclean⟩
    · rw [hclean ev hev] at herr; exact Option.noConfusion herr
  · intro hres ev hev
    rcases D with ⟨pre, ev₀, e₀, htr, herr₀, hclean, hres'⟩ | ⟨hclean, hne⟩
    · rw [hres] at hres'
      exact absurd (Except.error.inj hres') (fun hh => BlockingError.noConfusion hh)
    · exact hclean ev hev

/-- `do_transmit` satisfies the trailing-error-or-clean disjunction. -/
theorem do_transmit_err_or_clean {ε : Type} (dev : TxDevice ε)
    (opts : BlockingOptions) (fuel : Nat) :
    ∀ tr res, do_transmit dev opts fuel = some (tr, res) →
      (∃ pre ev e, tr = pre ++ [ev] ∧ TxEvent.err ev = some e ∧
        (∀ x ∈ pre, TxEvent.err x = none) ∧ res = .error (.Inner e)) ∨
      ((∀ x ∈ tr, TxEvent.err x = none) ∧ ∀ e, res ≠ .error (.Inner e)) := by
  intro tr res h
  unfold do_transmit at h
  cases hs : dev.start with
  | error e =>
    rw [hs] at h
    simp only [Option.some_inj, Prod.mk.injEq] at h
    obtain ⟨htr, hres⟩ := h
    exact Or.inl ⟨[], .start (.error e), e, by simp [← htr], rfl, by simp, hres.symm⟩
  | ok u =>
    rw [hs] at h
    cases hx : transmitLoop dev opts.poll_interval.as_micros
        opts.timeout.as_micros 0 0 fuel with
    | none => rw [hx] at h; simp at h
    | some r =>
      rw [hx] at h
      simp only [Option.map_some', Option.some_inj, Prod.mk.injEq] at h
      obtain ⟨htr, hres⟩ := h
      have hr : transmitLoop dev opts.poll_interval.as_micros
          opts.timeout.as_micros 0 0 fuel = some (r.1, res) := by
        rw [hx, ← hres]
      rcases transmitLoop_err_or_clean dev _ _ fuel 0 0 r.1 res hr with
        ⟨pre, ev, e, h1, h2, h3, h4⟩ | ⟨hclean, hne⟩
      · refine Or.inl ⟨.start (.ok ()) :: pre, ev, e, ?_, h2, ?_, h4⟩
        · rw [← htr, h1]; rfl
        · intro x hx'
          rcases List.mem_cons.mp hx' with hx1 | hx'
          · rw [hx1]; rfl
          · exact h3 x hx'
      · refine Or.inr ⟨?_, hne⟩
        intro x hx'
        rw [← htr] at hx'
        rcases List.mem_cons.mp hx' with hx1 | hx'
        · rw [hx1]; rfl
        · exact hclean x hx'

/-- `do_receive` satisfies the trailing-error-or-clean disjunction. -/
theorem do_receive_err_or_clean {ε ι : Type} (dev : RxDevice ε ι)
    (opts : BlockingOptions) (fuel : Nat) :
    ∀ tr res, do_receive dev opts fuel = some (tr, res) →
      (∃ pre ev e, tr = pre ++ [ev] ∧ RxEvent.err ev = some e ∧
        (∀ x ∈ pre, RxEvent.err x = none) ∧ res = .error (.Inner e)) ∨
      ((∀ x ∈ tr, RxEvent.err x = none) ∧ ∀ e, res ≠ .error (.Inner e)) := by
  intro tr res h
  unfold do_receive at h
  cases hs : dev.start with
  | error e =>
    rw [hs] at h
    simp only [Option.some_inj, Prod.mk.injEq] at h
    obtain ⟨htr, hres⟩ := h
    exact Or.inl ⟨[], .start (.error e), e, by simp [← htr], rfl, by simp, hres.symm⟩
  | ok u =>
    rw [hs] at h
    cases hx : receiveLoop dev opts.poll_interval.as_micros
        opts.timeout.as_micros 0 0 fuel with
    | none => rw [hx] at h; simp at h
    | some r =>
      rw [hx] at h
      simp only [Option.map_some', Option.some_inj, Prod.mk.injEq] at h
      obtain ⟨htr, hres⟩ := h
      have hr : receiveLoop dev opts.poll_interval.as_micros
          opts.timeout.as_micros 0 0 fuel = some (r.1, res) := by
        rw [hx, ← hres]
      rcases receiveLoop_err_or_clean dev _ _ fuel 0 0 r.1 res hr with
        ⟨pre, ev, e, h1, h2, h3, h4⟩ | ⟨hclean, hne⟩
      · refine Or.inl ⟨.start (.ok ()) :: pre, ev, e, ?_, h2, ?_, h4⟩
        · rw [← htr, h1]; rfl
        · intro x hx'
          rcases List.mem_cons.mp hx' with hx1 | hx'
          · rw [hx1]; rfl
          · exact h3 x hx'
      · refine Or.inr ⟨?_, hne⟩
        intro x hx'
        rw [← htr] at hx'
        rcases List.mem_cons.mp hx' with hx1 | hx'
        · rw [hx1]; rfl
        · exact hclean x hx'

/-- `set_state_checked` satisfies the trailing-error-or-clean disjunction. -/
theorem set_state_checked_err_or_clean {σ ε : Type} [DecidableEq σ]
    (dev : StDevice σ ε) (target : σ) (opts : BlockingOptions) (fuel : Nat) :
    ∀ tr res, set_state_checked dev target opts fuel = some (tr, res) →
      (∃ pre ev e, tr = pre ++ [ev] ∧ StEvent.err ev = some e ∧
        (∀ x ∈ pre, StEvent.err x = none) ∧ res = .error (.Inner e)) ∨
      ((∀ x ∈ tr, StEvent.err x = none) ∧ ∀ e, res ≠ .error (.Inner e)) := by
  intro tr res h
  unfold set_state_checked at h
  cases hs : dev.set with
  | error e =>
    rw [hs] at h
    simp only [Option.some_inj, Prod.mk.injEq] at h
    obtain ⟨htr, hres⟩ := h
    exact Or.inl ⟨[], .set (.error e), e, by simp [← htr], rfl, by simp, hres.symm⟩
  | ok u =>
    rw [hs] at h
    cases hx : stateLoop dev target opts.poll_interval.as_micros
        opts.timeout.as_micros 0 0 fuel with
    | none => rw [hx] at h; simp at h
    | some r =>
      rw [hx] at h
      simp only [Option.map_some', Option.some_inj, Prod.mk.injEq] at h
      obtain ⟨htr, hres⟩ := h
      have hr : stateLoop dev target opts.poll_interval.as_micros
          opts.timeout.as_micros 0 0 fuel = some (r.1, res) := by
        rw [hx, ← hres]
      rcases stateLoop_err_or_clean dev target _ _ fuel 0 0 r.1 res hr with
        ⟨pre, ev, e, h1, h2, h3, h4⟩ | ⟨hclean, hne⟩
      · refine Or.inl ⟨.set (.ok ()) :: pre, ev, e, ?_, h2, ?_, h4⟩
        · rw [← htr, h1]; rfl
        · intro x hx'
          rcases List.mem_cons.mp hx' with hx1 | hx'
          · rw [hx1]; rfl
          · exact h3 x hx'
      · refine Or.inr ⟨?_, hne⟩
        intro x hx'
        rw [← htr] at hx'
        rcases List.mem_cons.mp hx' with hx1 | hx'
        · rw [hx1]; rfl
        · exact hclean x hx'

/-- C3: in every blocking operation, a device call that returns an error `e`
makes the operation return `Inner e` — never `Timeout` — and is the last
device call made (immediate abort); and a `Timeout` result is produced only
by the engine's own budget check: no device call of the run errored. -/
theorem c3_device_error_inner_never_timeout {σ ε ι : Type} [DecidableEq σ]
    (td : TxDevice ε) (rd : RxDevice ε ι) (sd : StDevice σ ε) (target : σ)
    (opts : BlockingOptions) (fuel : Nat) :
    (∀ tr res, do_transmit td opts fuel = some (tr, res) →
      (∀ ev e, ev ∈ tr → TxEvent.err ev = some e →
        res = .error (.Inner e) ∧ ∃ pre, tr = pre ++ [ev] ∧ ∀ x ∈ pre, TxEvent.err x = none) ∧
      (res = .error .Timeout → ∀ ev ∈ tr, TxEvent.err ev = none)) ∧
    (∀ tr res, do_receive rd opts fuel = some (tr, res) →
      (∀ ev e, ev ∈ tr → RxEvent.err ev = some e →
        res = .error (.Inner e) ∧ ∃ pre, tr = pre ++ [ev] ∧ ∀ x ∈ pre, RxEvent.err x = none) ∧
      (res = .error .Timeout → ∀ ev ∈ tr, RxEvent.err ev = none)) ∧
    (∀ tr res, set_state_checked sd target opts fuel = some (tr, res) →
      (∀ ev e, ev ∈ tr → StEvent.err ev = some e →
        res = .error (.Inner e) ∧ ∃ pre, tr = pre ++ [ev] ∧ ∀ x ∈ pre, StEvent.err x = none) ∧
      (res = .error .Timeout → ∀ ev ∈ tr, StEvent.err ev = none)) := by
  refine ⟨?_, ?_, ?_⟩
  · intro tr res h
    exact errOrClean_elim TxEvent.err tr res (do_transmit_err_or_clean td opts fuel tr res h)
  · intro tr res h
    exact errOrClean_elim RxEvent.err tr res (do_receive_err_or_clean rd opts fuel tr res h)
  · intro tr res h
    exact errOrClean_elim StEvent.err tr res
      (set_state_checked_err_or_clean sd target opts fuel tr res h)

/-- Witness for C3: a device whose first `check_transmit` reports the
device-side error is answered with `Inner`, the erroring check being the
final device call. -/
theorem c3_device_error_inner_never_timeout_witness :
    do_transmit devTxErr optsA 5 =
      some ([.start (.ok ()), .check (.error .Timeout)], .error (.Inner .Timeout)) ∧
    ((.error (.Inner .Timeout) : Except (BlockingError MockError) Unit) =
        .error (.Inner .Timeout) ∧
      ∃ pre, ([.start (.ok ()), .check (.error .Timeout)] : List (TxEvent MockError)) =
        pre ++ [.check (.error .Timeout)] ∧ ∀ x ∈ pre, TxEvent.err x = none) := by
  refine ⟨by decide, ?_⟩
  exact ((c3_device_error_inner_never_timeout devTxErr devRx devStStuck .Idle optsA 5).1
    _ _ (by decide)).1 (.check (.error .Timeout)) .Timeout (by simp) rfl

/-- One polling step spends `p` of the remaining budget. -/
theorem budget_dec (p t c : Nat) (hp : 1 ≤ p) (hle : c + p ≤ t) :
    (t - (c + p)) / p + 1 = (t - c) / p := by
  have h1 : p ≤ t - c := by omega
  have h2 : t - (c + p) = t - c - p := by omega
  rw [h2]
  exact (Nat.div_eq_sub_div (by omega) h1).symm

/-- With a positive whole-microsecond poll interval the transmit polling
loop cannot exhaust `(t - c) / p + 1` units of fuel: it always returns. -/
theorem transmitLoop_terminates {ε : Type} (dev : TxDevice ε) (p t : Nat) (hp : 1 ≤ p) :
    ∀ fuel c i, c ≤ t → (t - c) / p + 1 ≤ fuel →
      transmitLoop dev p t c i fuel ≠ none := by
  intro fuel
  induction fuel with
  | zero => intro c i hct hf; exact absurd hf (Nat.not_succ_le_zero _)
  | succ f ih =>
    intro c i hct hf
    cases hc : dev.check i with
    | error e => simp [transmitLoop, hc]
    | ok b =>
      cases b with
      | true => simp [transmitLoop, hc]
      | false =>
        by_cases hto : c + p > t
        · simp [transmitLoop, hc, hto]
        · simp only [transmitLoop, hc, if_neg hto]
          intro hmap
          have hnone := Option.map_eq_none'.mp hmap
          have hbd : (t - (c + p)) / p + 1 ≤ f := by
            rw [budget_dec p t c hp (by omega)]
            omega
          exact ih (c + p) (i + 1) (by omega) hbd hnone

/-- With a positive whole-microsecond poll interval, any value the transmit
polling loop returns contains at most `(t - c) / p + 1` check calls. -/
theorem transmitLoop_check_count {ε : Type} (dev : TxDevice ε) (p t : Nat) (hp : 1 ≤ p) :
    ∀ fuel c i tr res, c ≤ t → transmitLoop dev p t c i fuel = some (tr, res) →
      tr.countP TxEvent.isCheck ≤ (t - c) / p + 1 := by
  intro fuel
  induction fuel with
  | zero => intro c i tr res hct h; simp [transmitLoop] at h
  | succ f ih =>
    intro c i tr res hct h
    cases hc : dev.check i with
    | error e =>
      simp only [transmitLoop, hc, Option.some_inj, Prod.mk.injEq] at h
      rw [← h.1]
      simp [List.countP_cons, TxEvent.isCheck]
    | ok b =>
      cases b with
      | true =>
        simp only [transmitLoop, hc, Option.some_inj, Prod.mk.injEq] at h
        rw [← h.1]
        simp [List.countP_cons, TxEvent.isCheck]
      | false =>
        by_cases hto : c + p > t
        · simp only [transmitLoop, hc, if_pos hto, Option.some_inj, Prod.mk.injEq] at h
          rw [← h.1]
          simp [List.countP_cons, TxEvent.isCheck]
        · simp only [transmitLoop, hc, if_neg hto] at h
          cases hx : transmitLoop dev p t (c + p) (i + 1) f with
          | none => rw [hx] at h; simp at h
          | some r =>
            rw [hx] at h
            simp only [Option.map_some', Option.some_inj, Prod.mk.injEq] at h
            obtain ⟨htr, hres⟩ := h
            have hr : transmitLoop dev p t (c + p) (i + 1) f = some (r.1, res) := by
              rw [hx, ← hres]
            have hcount := ih (c + p) (i + 1) r.1 res (by omega) hr
            rw [← htr]
            simp [List.countP_cons, TxEvent.isCheck]
            have hb := budget_dec p t c hp (by omega)
            omega

/-- When the poll interval truncates to zero whole microseconds and
`check_transmit` never returns true, the transmit polling loop never
returns: the accumulated counter never grows past the timeout. -/
theorem transmitLoop_diverges {ε : Type} (dev : TxDevice ε) (t : Nat)
    (hck : ∀ i, dev.check i = .ok false) :
    ∀ fuel c i, c ≤ t → transmitLoop dev 0 t c i fuel = none := by
  intro fuel
  induction fuel with
  | zero => intro c i hct; rfl
  | succ f ih =>
    intro c i hct
    have hto : ¬ c + 0 > t := by omega
    simp only [transmitLoop, hck i, if_neg hto]
    rw [ih (c + 0) (i + 1) (by omega)]
    rfl

/-- Receive analogue of `transmitLoop_terminates`. -/
theorem receiveLoop_terminates {ε ι : Type} (dev : RxDevice ε ι) (p t : Nat) (hp : 1 ≤ p) :
    ∀ fuel c i, c ≤ t → (t - c) / p + 1 ≤ fuel →
      receiveLoop dev p t c i fuel ≠ none := by
  intro fuel
  induction fuel with
  | zero => intro c i hct hf; exact absurd hf (Nat.not_succ_le_zero _)
  | succ f ih =>
    intro c i hct hf
    cases hc : dev.check i with
    | error e => simp [receiveLoop, hc]
    | ok b =>
      cases b with
      | true =>
        cases hfzz : dev.fetch with
        | error e => simp [receiveLoop, hc, hfzz]
        | ok ni => simp [receiveLoop, hc, hfzz]
      | false =>
        by_cases hto : c + p > t
        · simp [receiveLoop, hc, hto]
        · simp only [receiveLoop, hc, if_neg hto]
          intro hmap
          have hnone := Option.map_eq_none'.mp hmap
          have hbd : (t - (c + p)) / p + 1 ≤ f := by
            rw [budget_dec p t c hp (by omega)]
            omega
          exact ih (c + p) (i + 1) (by omega) hbd hnone

/-- Receive analogue of `transmitLoop_check_count`. -/
theorem receiveLoop_check_count {ε ι : Type} (dev : RxDevice ε ι) (p t : Nat) (hp : 1 ≤ p) :
    ∀ fuel c i tr res, c ≤ t → receiveLoop dev p t c i fuel = some (tr, res) →
      tr.countP RxEvent.isCheck ≤ (t - c) / p + 1 := by
  intro fuel
  induction fuel with
  | zero => intro c i tr res hct h; simp [receiveLoop] at h
  | succ f ih =>
    intro c i tr res hct h
    cases hc : dev.check i with
    | error e =>
      simp only [receiveLoop, hc, Option.some_inj, Prod.mk.injEq] at h
      rw [← h.1]
      simp [List.countP_cons, RxEvent.isCheck]
    | ok b =>
      cases b with
      | true =>
        cases hfzz : dev.fetch with
        | error e =>
          simp only [receiveLoop, hc, hfzz, Option.some_inj, Prod.mk.injEq] at h
          rw [← h.1]
          simp [List.countP_cons, RxEvent.isCheck]
        | ok ni =>
          simp only [receiveLoop, hc, hfzz, Option.some_inj, Prod.mk.injEq] at h
          rw [← h.1]
          simp [List.countP_cons, RxEvent.isCheck]
      | false =>
        by_cases hto : c + p > t
        · simp only [receiveLoop, hc, if_pos hto, Option.some_inj, Prod.mk.injEq] at h
          rw [← h.1]
          simp [List.countP_cons, RxEvent.isCheck]
        · simp only [receiveLoop, hc, if_neg hto] at h
          cases hx : receiveLoop dev p t (c + p) (i + 1) f with
          | none => rw [hx] at h; simp at h
          | some r =>
            rw [hx] at h
            simp only [Option.map_some', Option.some_inj, Prod.mk.injEq] at h
            obtain ⟨htr, hres⟩ := h
            have hr : receiveLoop dev p t (c + p) (i + 1) f = some (r.1, res) := by
              rw [hx, ← hres]
            have hcount := ih (c + p) (i + 1) r.1 res (by omega) hr
            rw [← htr]
            simp [List.countP_cons, RxEvent.isCheck]
            have hb := budget_dec p t c hp (by omega)
            omega

/-- Receive analogue of `transmitLoop_diverges`. -/
theorem receiveLoop_diverges {ε ι : Type} (dev : RxDevice ε ι) (t : Nat)
    (hck : ∀ i, dev.check i = .ok false) :
    ∀ fuel c i, c ≤ t → receiveLoop dev 0 t c i fuel = none := by
  intro fuel
  induction fuel with
  | zero => intro c i hct; rfl
  | succ f ih =>
    intro c i hct
    have hto : ¬ c + 0 > t := by omega
    simp only [receiveLoop, hck i, if_neg hto]
    rw [ih (c + 0) (i + 1) (by omega)]
    rfl

/-- State analogue of `transmitLoop_terminates`. -/
theorem stateLoop_terminates {σ ε : Type} [DecidableEq σ]
    (dev : StDevice σ ε) (target : σ) (p t : Nat) (hp : 1 ≤ p) :
    ∀ fuel c i, c ≤ t → (t - c) / p + 1 ≤ fuel →
      stateLoop dev target p t c i fuel ≠ none := by
  intro fuel
  induction fuel with
  | zero => intro c i hct hf; exact absurd hf (Nat.not_succ_le_zero _)
  | succ f ih =>
    intro c i hct hf
    cases hg : dev.get i with
    | error e => simp [stateLoop, hg]
    | ok s =>
      by_cases hts : target = s
      · simp [stateLoop, hg, hts]
      · by_cases hto : c + p > t
        · simp [stateLoop, hg, hts, hto]
        · simp only [stateLoop, hg, if_neg hts, if_neg hto]
          intro hmap
          have hnone := Option.map_eq_none'.mp hmap
          have hbd : (t - (c + p)) / p + 1 ≤ f := by
            rw [budget_dec p t c hp (by omega)]
            omega
          exact ih (c + p) (i + 1) (by omega) hbd hnone

/-- State analogue of `transmitLoop_check_count`, counting `get_state`
calls. -/
theorem stateLoop_get_count {σ ε : Type} [DecidableEq σ]
    (dev : StDevice σ ε) (target : σ) (p t : Nat) (hp : 1 ≤ p) :
    ∀ fuel c i tr res, c ≤ t → stateLoop dev target p t c i fuel = some (tr, res) →
      tr.countP StEvent.isGet ≤ (t - c) / p + 1 := by
  intro fuel
  induction fuel with
  | zero => intro c i tr res hct h; simp [stateLoop] at h
  | succ f ih =>
    intro c i tr res hct h
    cases hg : dev.get i with
    | error e =>
      simp only [stateLoop, hg, Option.some_inj, Prod.mk.injEq] at h
      rw [← h.1]
      simp [List.countP_cons, StEvent.isGet]
    | ok s =>
      by_cases hts : target = s
      · simp only [stateLoop, hg, if_pos hts, Option.some_inj, Prod.mk.injEq] at h
        rw [← h.1]
        simp [List.countP_cons, StEvent.isGet]
      · by_cases hto : c + p > t
        · simp only [stateLoop, hg, if_neg hts, if_pos hto, Option.some_inj,
            Prod.mk.injEq] at h
          rw [← h.1]
          simp [List.countP_cons, StEvent.isGet]
        · simp only [stateLoop, hg, if_neg hts, if_neg hto] at h
          cases hx : stateLoop dev target p t (c + p) (i + 1) f with
          | none => rw [hx] at h; simp at h
          | some r =>
            rw [hx] at h
            simp only [Option.map_some', Option.some_inj, Prod.mk.injEq] at h
            obtain ⟨htr, hres⟩ := h
            have hr : stateLoop dev target p t (c + p) (i + 1) f = some (r.1, res) := by
              rw [hx, ← hres]
            have hcount := ih (c + p) (i + 1) r.1 res (by omega) hr
            rw [← htr]
            simp [List.countP_cons, StEvent.isGet]
            have hb := budget_dec p t c hp (by omega)
            omega

/-- State analogue of `transmitLoop_diverges`: `get_state` always returns a
state different from the target. -/
theorem stateLoop_diverges {σ ε : Type} [DecidableEq σ]
    (dev : StDevice σ ε) (target : σ) (t : Nat)
    (hg : ∀ i, ∃ s, dev.get i = .ok s ∧ ¬ target = s) :
    ∀ fuel c i, c ≤ t → stateLoop dev target 0 t c i fuel = none := by
  intro fuel
  induction fuel with
  | zero => intro c i hct; rfl
  | succ f ih =>
    intro c i hct
    obtain ⟨s, hgs, hts⟩ := hg i
    have hto : ¬ c + 0 > t := by omega
    simp only [stateLoop, hgs, if_neg hts, if_neg hto]
    rw [ih (c + 0) (i + 1) (by omega)]
    rfl

/-- C9: with a poll interval of at least one whole microsecond, every
blocking operation returns for every device behaviour within
`t/p + 1` polling iterations — it cannot exhaust that much fuel, and any
returned trace contains at most `t/p + 1` check (resp. `get_state`) calls;
with a sub-microsecond poll interval (`as_micros = 0`) the accumulated
counter never grows, so a device whose check never succeeds makes the
operation loop forever (no fuel suffices). -/
theorem c9_blocking_termination_bound {σ ε ι : Type} [DecidableEq σ]
    (td : TxDevice ε) (rd : RxDevice ε ι) (sd : StDevice σ ε) (target : σ)
    (opts : BlockingOptions) (fuel : Nat) :
    (1 ≤ opts.poll_interval.as_micros →
      opts.timeout.as_micros / opts.poll_interval.as_micros + 1 ≤ fuel →
      (do_transmit td opts fuel ≠ none ∧
        (∀ tr res, do_transmit td opts fuel = some (tr, res) →
          tr.countP TxEvent.isCheck ≤
            opts.timeout.as_micros / opts.poll_interval.as_micros + 1)) ∧
      (do_receive rd opts fuel ≠ none ∧
        (∀ tr res, do_receive rd opts fuel = some (tr, res) →
          tr.countP RxEvent.isCheck ≤
            opts.timeout.as_micros / opts.poll_interval.as_micros + 1)) ∧
      (set_state_checked sd target opts fuel ≠ none ∧
        (∀ tr res, set_state_checked sd target opts fuel = some (tr, res) →
          tr.countP StEvent.isGet ≤
            opts.timeout.as_micros / opts.poll_interval.as_micros + 1))) ∧
    (opts.poll_interval.as_micros = 0 →
      ((∀ i, td.check i = .ok false) → td.start = .ok () →
        do_transmit td opts fuel = none) ∧
      ((∀ i, rd.check i = .ok false) → rd.start = .ok () →
        do_receive rd opts fuel = none) ∧
      ((∀ i, ∃ s, sd.get i = .ok s ∧ ¬ target = s) → sd.set = .ok () →
        set_state_checked sd target opts fuel = none)) := by
  constructor
  · intro hp hf
    refine ⟨⟨?_, ?_⟩, ⟨?_, ?_⟩, ⟨?_, ?_⟩⟩
    · unfold do_transmit
      cases hs : td.start with
      | error e => simp
      | ok u =>
        intro hmap
        exact transmitLoop_terminates td _ _ hp fuel 0 0 (Nat.zero_le _)
          (by simpa using hf) (Option.map_eq_none'.mp hmap)
    · intro tr res h
      unfold do_transmit at h
      cases hs : td.start with
      | error e =>
        rw [hs] at h
        simp only [Option.some_inj, Prod.mk.injEq] at h
        rw [← h.1]
        simp [List.countP_cons, TxEvent.isCheck]
      | ok u =>
        rw [hs] at h
        cases hx : transmitLoop td opts.poll_interval.as_micros
            opts.timeout.as_micros 0 0 fuel with
        | none => rw [hx] at h; simp at h
        | some r =>
          rw [hx] at h
          simp only [Option.map_some', Option.some_inj, Prod.mk.injEq] at h
          obtain ⟨htr, hres⟩ := h
          have hr : transmitLoop td opts.poll_interval.as_micros
              opts.timeout.as_micros 0 0 fuel = some (r.1, res) := by
            rw [hx, ← hres]
          have := transmitLoop_check_count td _ _ hp fuel 0 0 r.1 res (Nat.zero_le _) hr
          rw [← htr]
          simp [List.countP_cons, TxEvent.isCheck]
          simp only [Nat.sub_zero] at this
          omega
    · unfold do_receive
      cases hs : rd.start with
      | error e => simp
      | ok u =>
        intro hmap
        exact receiveLoop_terminates rd _ _ hp fuel 0 0 (Nat.zero_le _)
          (by simpa using hf) (Option.map_eq_none'.mp hmap)
    · intro tr res h
      unfold do_receive at h
      cases hs : rd.start with
      | error e =>
        rw [hs] at h
        simp only [Option.some_inj, Prod.mk.injEq] at h
        rw [← h.1]
        simp [List.countP_cons, RxEvent.isCheck]
      | ok u =>
        rw [hs] at h
        cases hx : receiveLoop rd opts.poll_interval.as_micros
            opts.timeout.as_micros 0 0 fuel with
        | none => rw [hx] at h; simp at h
        | some r =>
          rw [hx] at h
          simp only [Option.map_some', Option.some_inj, Prod.mk.injEq] at h
          obtain ⟨htr, hres⟩ := h
          have hr : receiveLoop rd opts.poll_interval.as_micros
              opts.timeout.as_micros 0 0 fuel = some (r.1, res) := by
            rw [hx, ← hres]
          have := receiveLoop_check_count rd _ _ hp fuel 0 0 r.1 res (Nat.zero_le _) hr
          rw [← htr]
          simp [List.countP_cons, RxEvent.isCheck]
          simp only [Nat.sub_zero] at this
          omega
    · unfold set_state_checked
      cases hs : sd.set with
      | error e => simp
      | ok u =>
        intro hmap
        exact stateLoop_terminates sd target _ _ hp fuel 0 0 (Nat.zero_le _)
          (by simpa using hf) (Option.map_eq_none'.mp hmap)
    · intro tr res h
      unfold set_state_checked at h
      cases hs : sd.set with
      | error e =>
        rw [hs] at h
        simp only [Option.some_inj, Prod.mk.injEq] at h
        rw [← h.1]
        simp [List.countP_cons, StEvent.isGet]
      | ok u =>
        rw [hs] at h
        cases hx : stateLoop sd target opts.poll_interval.as_micros
            opts.timeout.as_micros 0 0 fuel with
        | none => rw [hx] at h; simp at h
        | some r =>
          rw [hx] at h
          simp only [Option.map_some', Option.some_inj, Prod.mk.injEq] at h
          obtain ⟨htr, hres⟩ := h
          have hr : stateLoop sd target opts.poll_interval.as_micros
              opts.timeout.as_micros 0 0 fuel = some (r.1, res) := by
            rw [hx, ← hres]
          have := stateLoop_get_count sd target _ _ hp fuel 0 0 r.1 res (Nat.zero_le _) hr
          rw [← htr]
          simp [List.countP_cons, StEvent.isGet]
          simp only [Nat.sub_zero] at this
          omega
  · intro hp0
    refine ⟨?_, ?_, ?_⟩
    · intro hck hst
      unfold do_transmit
      rw [hst, hp0, transmitLoop_diverges td _ hck fuel 0 0 (Nat.zero_le _)]
      rfl
    · intro hck hst
      unfold do_receive
      rw [hst, hp0, receiveLoop_diverges rd _ hck fuel 0 0 (Nat.zero_le _)]
      rfl
    · intro hgt hst
      unfold set_state_checked
      rw [hst, hp0, stateLoop_diverges sd target _ hgt fuel 0 0 (Nat.zero_le _)]
      rfl

/-- Witness for C9: with a 1us poll interval and a 2us timeout a device that
never completes still makes `do_transmit` return, while a 500ns poll
interval (zero whole microseconds) makes it loop forever at any fuel. -/
theorem c9_blocking_termination_bound_witness :
    (1 ≤ optsSmall.poll_interval.as_micros ∧
      optsSmall.timeout.as_micros / optsSmall.poll_interval.as_micros + 1 ≤ 9 ∧
      do_transmit devTxFalse optsSmall 9 ≠ none) ∧
    (optsSub.poll_interval.as_micros = 0 ∧
      do_transmit devTxFalse optsSub 7 = none) := by
  constructor
  · refine ⟨by decide, by decide, ?_⟩
    exact (((c9_blocking_termination_bound devTxFalse devRxFalse devStStuck .Idle
      optsSmall 9).1 (by decide) (by decide)).1).1
  · refine ⟨by decide, ?_⟩
    exact ((c9_blocking_termination_bound devTxFalse devRxFalse devStStuck .Idle
      optsSub 7).2 (by decide)).1 (fun _ => rfl) rfl

/-- The receive polling loop emits no `start_receive` event. -/
theorem receiveLoop_no_start {ε ι : Type} (dev : RxDevice ε ι) (p t : Nat) :
    ∀ fuel c i tr res, receiveLoop dev p t c i fuel = some (tr, res) →
      ∀ x ∈ tr, RxEvent.isStart x = false := by
  intro fuel
  induction fuel with
  | zero => intro c i tr res h; simp [receiveLoop] at h
  | succ f ih =>
    intro c i tr res h x hx
    cases hc : dev.check i with
    | error e =>
      simp only [receiveLoop, hc, Option.some_inj, Prod.mk.injEq] at h
      rw [← h.1] at hx; simp at hx; rw [hx]; rfl
    | ok b =>
      cases b with
      | true =>
        cases hfz : dev.fetch with
        | error e =>
          simp only [receiveLoop, hc, hfz, Option.some_inj, Prod.mk.injEq] at h
          rw [← h.1] at hx
          rcases List.mem_cons.mp hx with h1 | hx'
          · rw [h1]; rfl
          · simp at hx'; rw [hx']; rfl
        | ok ni =>
          simp only [receiveLoop, hc, hfz, Option.some_inj, Prod.mk.injEq] at h
          rw [← h.1] at hx
          rcases List.mem_cons.mp hx with h1 | hx'
          · rw [h1]; rfl
          · simp at hx'; rw [hx']; rfl
      | false =>
        by_cases hto : c + p > t
        · simp only [receiveLoop, hc, if_pos hto, Option.some_inj, Prod.mk.injEq] at h
          rw [← h.1] at hx; simp at hx; rw [hx]; rfl
        · simp only [receiveLoop, hc, if_neg hto] at h
          cases hr0 : receiveLoop dev p t (c + p) (i + 1) f with
          | none => rw [hr0] at h; simp at h
          | some r =>
            rw [hr0] at h
            simp only [Option.map_some', Option.some_inj, Prod.mk.injEq] at h
            obtain ⟨htr, hres⟩ := h
            rw [← htr] at hx
            rcases List.mem_cons.mp hx with h1 | hx'
            · rw [h1]; rfl
            rcases List.mem_cons.mp hx' with h2 | hx'
            · rw [h2]; rfl
            · exact ih (c + p) (i + 1) r.1 r.2 (by rw [hr0]) x hx'

/-- The receive polling loop makes at most one `get_received` call. -/
theorem receiveLoop_fetch_count {ε ι : Type} (dev : RxDevice ε ι) (p t : Nat) :
    ∀ fuel c i tr res, receiveLoop dev p t c i fuel = some (tr, res) →
      tr.countP RxEvent.isFetch ≤ 1 := by
  intro fuel
  induction fuel with
  | zero => intro c i tr res h; simp [receiveLoop] at h
  | succ f ih =>
    intro c i tr res h
    cases hc : dev.check i with
    | error e =>
      simp only [receiveLoop, hc, Option.some_inj, Prod.mk.injEq] at h
      rw [← h.1]; simp [List.countP_cons, RxEvent.isFetch]
    | ok b =>
      cases b with
      | true =>
        cases hfz : dev.fetch with
        | error e =>
          simp only [receiveLoop, hc, hfz, Option.some_inj, Prod.mk.injEq] at h
          rw [← h.1]; simp [List.countP_cons, RxEvent.isFetch]
        | ok ni =>
          simp only [receiveLoop, hc, hfz, Option.some_inj, Prod.mk.injEq] at h
          rw [← h.1]; simp [List.countP_cons, RxEvent.isFetch]
      | false =>
        by_cases hto : c + p > t
        · simp only [receiveLoop, hc, if_pos hto, Option.some_inj, Prod.mk.injEq] at h
          rw [← h.1]; simp [List.countP_cons, RxEvent.isFetch]
        · simp only [receiveLoop, hc, if_neg hto] at h
          cases hr0 : receiveLoop dev p t (c + p) (i + 1) f with
          | none => rw [hr0] at h; simp at h
          | some r =>
            rw [hr0] at h
            simp only [Option.map_some', Option.some_inj, Prod.mk.injEq] at h
            obtain ⟨htr, hres⟩ := h
            have := ih (c + p) (i + 1) r.1 r.2 (by rw [hr0])
            rw [← htr]
            simp [List.countP_cons, RxEvent.isFetch]
            omega

/-- In any receive-polling-loop trace, a `get_received` event is the final
event and is immediately preceded by a `check_receive` that returned true. -/
theorem receiveLoop_fetch_position {ε ι : Type} (dev : RxDevice ε ι) (p t : Nat) :
    ∀ fuel c i tr res, receiveLoop dev p t c i fuel = some (tr, res) →
      ∀ pre r suf, tr = pre ++ .fetch r :: suf →
        suf = [] ∧ ∃ pre', pre = pre' ++ [.check true (.ok true)] := by
  intro fuel
  induction fuel with
  | zero => intro c i tr res h; simp [receiveLoop] at h
  | succ f ih =>
    intro c i tr res h pre r suf htr
    cases hc : dev.check i with
    | error e =>
      simp only [receiveLoop, hc, Option.some_inj, Prod.mk.injEq] at h
      rw [← h.1] at htr
      rcases pre with _ | ⟨a, pre⟩ <;> simp at htr
    | ok b =>
      cases b with
      | true =>
        cases hfz : dev.fetch with
        | error e =>
          simp only [receiveLoop, hc, hfz, Option.some_inj, Prod.mk.injEq] at h
          rw [← h.1] at htr
          rcases pre with _ | ⟨a, pre⟩
          · simp at htr
          rcases pre with _ | ⟨b', pre⟩
          · simp at htr
            exact ⟨htr.2.2, [], by simp [htr.1]⟩
          · simp at htr
        | ok ni =>
          simp only [receiveLoop, hc, hfz, Option.some_inj, Prod.mk.injEq] at h
          rw [← h.1] at htr
          rcases pre with _ | ⟨a, pre⟩
          · simp at htr
          rcases pre with _ | ⟨b', pre⟩
          · simp at htr
            exact ⟨htr.2.2, [], by simp [htr.1]⟩
          · simp at htr
      | false =>
        by_cases hto : c + p > t
        · simp only [receiveLoop, hc, if_pos hto, Option.some_inj, Prod.mk.injEq] at h
          rw [← h.1] at htr
          rcases pre with _ | ⟨a, pre⟩ <;> simp at htr
        · simp only [receiveLoop, hc, if_neg hto] at h
          cases hr0 : receiveLoop dev p t (c + p) (i + 1) f with
          | none => rw [hr0] at h; simp at h
          | some rr =>
            rw [hr0] at h
            simp only [Option.map_some', Option.some_inj, Prod.mk.injEq] at h
            obtain ⟨htr2, hres⟩ := h
            rw [← htr2] at htr
            rcases pre with _ | ⟨a, pre⟩
            · simp at htr
            rcases pre with _ | ⟨b', pre⟩
            · simp at htr
            · simp only [List.cons_append, List.cons.injEq] at htr
              obtain ⟨ha, hb, hrest⟩ := htr
              obtain ⟨hsuf, pre', hpre⟩ :=
                ih (c + p) (i + 1) rr.1 rr.2 (by rw [hr0]) pre r suf hrest
              refine ⟨hsuf, .check true (.ok false) :: .delay (p % 4294967296) :: pre', ?_⟩
              rw [ha, hb, hpre]
              rfl

/-- C6: in every run of the blocking `do_receive`, `get_received` is called
at most once and only immediately after a `check_receive` that returned
true, nothing follows the fetch (in particular no further check), and the
trace opens with the single `start_receive` — so every check occurs strictly
after it. -/
theorem c6_do_receive_fetch_discipline {ε ι : Type} (dev : RxDevice ε ι)
    (opts : BlockingOptions) (fuel : Nat) :
    ∀ tr res, do_receive dev opts fuel = some (tr, res) →
      tr.countP RxEvent.isFetch ≤ 1 ∧
      (∀ pre r suf, tr = pre ++ .fetch r :: suf →
        suf = [] ∧ ∃ pre', pre = pre' ++ [.check true (.ok true)]) ∧
      (∃ r0 tr', tr = .start r0 :: tr' ∧ ∀ x ∈ tr', RxEvent.isStart x = false) := by
  intro tr res h
  unfold do_receive at h
  cases hs : dev.start with
  | error e =>
    rw [hs] at h
    simp only [Option.some_inj, Prod.mk.injEq] at h
    obtain ⟨htr, hres⟩ := h
    refine ⟨?_, ?_, .error e, [], by rw [← htr], by simp⟩
    · rw [← htr]; simp [List.countP_cons, RxEvent.isFetch]
    · intro pre r suf hd
      rw [← htr] at hd
      rcases pre with _ | ⟨a, pre⟩ <;> simp at hd
  | ok u =>
    rw [hs] at h
    cases hx : receiveLoop dev opts.poll_interval.as_micros
        opts.timeout.as_micros 0 0 fuel with
    | none => rw [hx] at h; simp at h
    | some r =>
      rw [hx] at h
      simp only [Option.map_some', Option.some_inj, Prod.mk.injEq] at h
      obtain ⟨htr, hres⟩ := h
      refine ⟨?_, ?_, .ok (), r.1, by rw [← htr], ?_⟩
      · rw [← htr]
        have := receiveLoop_fetch_count dev _ _ fuel 0 0 r.1 r.2 hx
        simp [List.countP_cons, RxEvent.isFetch]
        omega
      · intro pre rr suf hd
        rw [← htr] at hd
        rcases pre with _ | ⟨a, pre⟩
        · simp at hd
        · simp only [List.cons_append, List.cons.injEq] at hd
          obtain ⟨ha, hrest⟩ := hd
          obtain ⟨hsuf, pre', hpre⟩ :=
            receiveLoop_fetch_position dev _ _ fuel 0 0 r.1 r.2 hx pre rr suf hrest
          refine ⟨hsuf, .start (.ok ()) :: pre', ?_⟩
          rw [ha, hpre]
          rfl
      · exact receiveLoop_no_start dev _ _ fuel 0 0 r.1 r.2 hx

/-- Witness for C6: a device with one false check, then a successful check
and a 2-byte fetch; the resulting trace obeys the fetch discipline. -/
theorem c6_do_receive_fetch_discipline_witness :
    do_receive devRx optsA 3 =
      some ([.start (.ok ()), .check true (.ok false), .delay 1,
             .check true (.ok true), .fetch (.ok (2, ⟨-81, 0⟩))], .ok (2, ⟨-81, 0⟩)) ∧
    (([.start (.ok ()), .check true (.ok false), .delay 1,
        .check true (.ok true),
        .fetch (.ok (2, ⟨-81, 0⟩))] : List (RxEvent MockError BasicInfo)).countP
          RxEvent.isFetch ≤ 1 ∧
      (∀ pre r suf,
        ([.start (.ok ()), .check true (.ok false), .delay 1,
          .check true (.ok true),
          .fetch (.ok (2, ⟨-81, 0⟩))] : List (RxEvent MockError BasicInfo)) =
            pre ++ .fetch r :: suf →
        suf = [] ∧ ∃ pre', pre = pre' ++ [.check true (.ok true)]) ∧
      (∃ r0 tr', ([.start (.ok ()), .check true (.ok false), .delay 1,
          .check true (.ok true),
          .fetch (.ok (2, ⟨-81, 0⟩))] : List (RxEvent MockError BasicInfo)) =
            .start r0 :: tr' ∧ ∀ x ∈ tr', RxEvent.isStart x = false)) := by
  refine ⟨by decide, ?_⟩
  exact c6_do_receive_fetch_discipline devRx optsA 3
    [.start (.ok ()), .check true (.ok false), .delay 1,
     .check true (.ok true), .fetch (.ok (2, ⟨-81, 0⟩))]
    (.ok (2, ⟨-81, 0⟩)) (by decide)

/-- The transmit polling loop emits no `set_power` event. -/
theorem transmitLoop_no_power {ε : Type} (dev : TxDevice ε) (p t : Nat) :
    ∀ fuel c i tr res, transmitLoop dev p t c i fuel = some (tr, res) →
      ∀ x ∈ tr, TxEvent.isPower x = false := by
  intro fuel
  induction fuel with
  | zero => intro c i tr res h; simp [transmitLoop] at h
  | succ f ih =>
    intro c i tr res h x hx
    cases hc : dev.check i with
    | error e =>
      simp only [transmitLoop, hc, Option.some_inj, Prod.mk.injEq] at h
      rw [← h.1] at hx; simp at hx; rw [hx]; rfl
    | ok b =>
      cases b with
      | true =>
        simp only [transmitLoop, hc, Option.some_inj, Prod.mk.injEq] at h
        rw [← h.1] at hx; simp at hx; rw [hx]; rfl
      | false =>
        by_cases hto : c + p > t
        · simp only [transmitLoop, hc, if_pos hto, Option.some_inj, Prod.mk.injEq] at h
          rw [← h.1] at hx; simp at hx; rw [hx]; rfl
        · simp only [transmitLoop, hc, if_neg hto] at h
          cases hr0 : transmitLoop dev p t (c + p) (i + 1) f with
          | none => rw [hr0] at h; simp at h
          | some r =>
            rw [hr0] at h
            simp only [Option.map_some', Option.some_inj, Prod.mk.injEq] at h
            obtain ⟨htr, hres⟩ := h
            rw [← htr] at hx
            rcases List.mem_cons.mp hx with h1 | hx'
            · rw [h1]; rfl
            rcases List.mem_cons.mp hx' with h2 | hx'
            · rw [h2]; rfl
            · exact ih (c + p) (i + 1) r.1 r.2 (by rw [hr0]) x hx'

/-- C2 counterexample: with the spec's options carrying a 10 dBm power
override and a device whose first check succeeds, the spec's shared
blocking algorithm issues `set_power` before `start_transmit`, but the
source's `do_transmit` — whose `BlockingOptions` has no power field — makes
no power call at all on the corresponding configuration. -/
theorem c2_power_override_counterexample :
    do_transmit_spec devTxNow sOpts 2 =
      some ([.power 10 (.ok ()), .start (.ok ()), .check (.ok true)], .ok ()) ∧
    do_transmit devTxNow optsA 2 =
      some ([.start (.ok ()), .check (.ok true)], .ok ()) ∧
    (TxEvent.power 10 (.ok ()) ∈
      ([.power 10 (.ok ()), .start (.ok ()), .check (.ok true)] : List (TxEvent MockError))) ∧
    (TxEvent.power 10 (.ok ()) ∉
      ([.start (.ok ()), .check (.ok true)] : List (TxEvent MockError))) := by
  refine ⟨by decide, by decide, by simp, by simp⟩

/-- C2 as amended: the blocking `do_transmit` never makes a `set_power`
call — `BlockingOptions` carries no power override (only the async engine's
`AsyncOptions` does) — so no run's trace contains a power event. -/
theorem c2_do_transmit_never_sets_power {ε : Type} (dev : TxDevice ε)
    (opts : BlockingOptions) (fuel : Nat) :
    ∀ tr res, do_transmit dev opts fuel = some (tr, res) →
      ∀ x ∈ tr, TxEvent.isPower x = false := by
  intro tr res h x hx
  unfold do_transmit at h
  cases hs : dev.start with
  | error e =>
    rw [hs] at h
    simp only [Option.some_inj, Prod.mk.injEq] at h
    rw [← h.1] at hx; simp at hx; rw [hx]; rfl
  | ok u =>
    rw [hs] at h
    cases hr0 : transmitLoop dev opts.poll_interval.as_micros
        opts.timeout.as_micros 0 0 fuel with
    | none => rw [hr0] at h; simp at h
    | some r =>
      rw [hr0] at h
      simp only [Option.map_some', Option.some_inj, Prod.mk.injEq] at h
      obtain ⟨htr, hres⟩ := h
      rw [← htr] at hx
      rcases List.mem_cons.mp hx with h1 | hx'
      · rw [h1]; rfl
      · exact transmitLoop_no_power dev _ _ fuel 0 0 r.1 r.2 hr0 x hx'

/-- Witness for the amended C2: a concrete successful transmit run whose
trace is power-free. -/
theorem c2_do_transmit_never_sets_power_witness :
    do_transmit devTxNow optsA 2 =
      some ([.start (.ok ()), .check (.ok true)], .ok ()) ∧
    (∀ x ∈ ([.start (.ok ()), .check (.ok true)] : List (TxEvent MockError)),
      TxEvent.isPower x = false) := by
  refine ⟨by decide, ?_⟩
  exact c2_do_transmit_never_sets_power devTxNow optsA 2
    [.start (.ok ()), .check (.ok true)] (.ok ()) (by decide)

/-- C4: the cooperative transmit. At creation, `async_transmit` eagerly
applies the power override (when one is set) and then `start_transmit`,
without performing any check; the constructed future carries the expiry
`now + timeout`. Each poll performs exactly one `check_transmit` (the
response index advances by one): `true` completes with success, an error
completes with `Inner`; on `false`, if an expiry was set and the poll time
strictly exceeds it the future completes with `Timeout`, and otherwise it
suspends, waking via the supplied callback or — when none was supplied —
requesting immediate re-invocation. -/
theorem c4_async_transmit_protocol {ε : Type} (dev : TxDevice ε)
    (opts : AsyncOptions) (now : Nat) :
    (∀ x ∈ (async_transmit dev opts now).1, TxEvent.isCheck x = false) ∧
    (opts.power = none → (async_transmit dev opts now).1 = [.start dev.start]) ∧
    (∀ pw, opts.power = some pw → dev.power pw = .ok () →
      (async_transmit dev opts now).1 = [.power pw (.ok ()), .start dev.start]) ∧
    (∀ pw e, opts.power = some pw → dev.power pw = .error e →
      (async_transmit dev opts now).1 = [.power pw (.error e)] ∧
      (async_transmit dev opts now).2 = .error (.Inner e)) ∧
    (∀ fut, (async_transmit dev opts now).2 = .ok fut →
      fut.expiry = opts.timeout.map (fun t => now + t.nanos) ∧ fut.idx = 0) ∧
    (∀ st nw, ((transmitFuturePoll dev st nw).2).idx = st.idx + 1) ∧
    (∀ st nw, dev.check st.idx = .ok true →
      (transmitFuturePoll dev st nw).1 = .ready (.ok ())) ∧
    (∀ st nw e, dev.check st.idx = .error e →
      (transmitFuturePoll dev st nw).1 = .ready (.error (.Inner e))) ∧
    (∀ st nw ex, dev.check st.idx = .ok false → st.expiry = some ex → nw > ex →
      (transmitFuturePoll dev st nw).1 = .ready (.error .Timeout)) ∧
    (∀ st nw, dev.check st.idx = .ok false →
      (st.expiry = none ∨ ∃ ex, st.expiry = some ex ∧ ¬ nw > ex) →
      (transmitFuturePoll dev st nw).1 = .pending st.wake_fn st.period) := by
  refine ⟨?_, ?_, ?_, ?_, ?_, ?_, ?_, ?_, ?_, ?_⟩
  · intro x hx
    cases hp : opts.power with
    | none =>
      cases hs : dev.start with
      | error e => simp only [async_transmit, hp, hs] at hx; simp at hx; rw [hx]; rfl
      | ok u => simp only [async_transmit, hp, hs] at hx; simp at hx; rw [hx]; rfl
    | some pw =>
      cases hpw : dev.power pw with
      | error e => simp only [async_transmit, hp, hpw] at hx; simp at hx; rw [hx]; rfl
      | ok u =>
        cases hs : dev.start with
        | error e =>
          simp only [async_transmit, hp, hpw, hs] at hx
          rcases List.mem_cons.mp hx with h1 | hx'
          · rw [h1]; rfl
          · simp at hx'; rw [hx']; rfl
        | ok u' =>
          simp only [async_transmit, hp, hpw, hs] at hx
          rcases List.mem_cons.mp hx with h1 | hx'
          · rw [h1]; rfl
          · simp at hx'; rw [hx']; rfl
  · intro hp
    cases hs : dev.start with
    | error e => simp only [async_transmit, hp, hs]
    | ok u => simp only [async_transmit, hp, hs]
  · intro pw hp hpw
    cases hs : dev.start with
    | error e => simp only [async_transmit, hp, hpw, hs]
    | ok u => simp only [async_transmit, hp, hpw, hs]
  · intro pw e hp hpw
    simp only [async_transmit, hp, hpw]
    exact ⟨trivial, trivial⟩
  · intro fut hf
    cases hp : opts.power with
    | none =>
      cases hs : dev.start with
      | error e => simp only [async_transmit, hp, hs] at hf; exact absurd hf (by simp)
      | ok u =>
        simp only [async_transmit, hp, hs, Except.ok.injEq] at hf
        rw [← hf]
        exact ⟨rfl, rfl⟩
    | some pw =>
      cases hpw : dev.power pw with
      | error e => simp only [async_transmit, hp, hpw] at hf; exact absurd hf (by simp)
      | ok u =>
        cases hs : dev.start with
        | error e => simp only [async_transmit, hp, hpw, hs] at hf; exact absurd hf (by simp)
        | ok u' =>
          simp only [async_transmit, hp, hpw, hs, Except.ok.injEq] at hf
          rw [← hf]
          exact ⟨rfl, rfl⟩
  · intro st nw
    unfold transmitFuturePoll
    cases hc : dev.check st.idx with
    | error e => rfl
    | ok b =>
      cases b with
      | true => rfl
      | false =>
        cases hex : st.expiry with
        | none => rfl
        | some ex =>
          by_cases hnw : nw > ex
          · simp [hnw]
          · simp [hnw]
  · intro st nw hc
    unfold transmitFuturePoll
    rw [hc]
  · intro st nw e hc
    unfold transmitFuturePoll
    rw [hc]
  · intro st nw ex hc hex hnw
    unfold transmitFuturePoll
    rw [hc, hex]
    simp [hnw]
  · intro st nw hc hdis
    unfold transmitFuturePoll
    rw [hc]
    rcases hdis with hnone | ⟨ex, hex, hnw⟩
    · rw [hnone]
    · rw [hex]
      simp [hnw]

/-- Witness for C4: with a 10 dBm override the construction trace is
`set_power` then `start_transmit`; a poll before the expiry suspends with an
immediate re-invocation request (no callback was supplied), and a poll past
the expiry completes with `Timeout`. -/
theorem c4_async_transmit_protocol_witness :
    (async_transmit devTxFalse aOpts 0).1 = [.power 10 (.ok ()), .start (.ok ())] ∧
    (transmitFuturePoll devTxFalse ⟨some 100000, Duration.from_micros 1, false, 0⟩ 5).1 =
      .pending false (Duration.from_micros 1) ∧
    (transmitFuturePoll devTxFalse ⟨some 100000, Duration.from_micros 1, false, 3⟩ 100001).1 =
      .ready (.error .Timeout) := by
  have h := c4_async_transmit_protocol devTxFalse aOpts 0
  refine ⟨h.2.2.1 10 rfl rfl, ?_, ?_⟩
  · exact (c4_async_transmit_protocol devTxFalse aOpts 0).2.2.2.2.2.2.2.2.2
      ⟨some 100000, Duration.from_micros 1, false, 0⟩ 5 rfl
      (Or.inr ⟨100000, rfl, by omega⟩)
  · exact (c4_async_transmit_protocol devTxFalse aOpts 0).2.2.2.2.2.2.2.2.1
      ⟨some 100000, Duration.from_micros 1, false, 3⟩ 100001 100000 rfl rfl (by omega)

/-- C5: every capability call against the mock dequeues exactly the head
transaction — failing (test panic, `none`) when the queue is empty or when
the actual request differs from the head's expected request, and otherwise
translating the canned response into the call's return value; `done`
succeeds exactly when the queue is drained; and a failing call aborts the
run at that call, regardless of what follows. -/
theorem c5_mock_strict_fifo {St Reg Ch Inf Irq E : Type}
    [DecidableEq St] [DecidableEq Reg] [DecidableEq Ch]
    (call : Mock.Call St Ch) (q : List (Mock.Transaction St Reg Ch Inf Irq E)) :
    (Mock.doCall call q = match q with
      | [] => none
      | n :: rest =>
        if n.request = Mock.reqOf call then
          (Mock.translate call n.response).map (fun r => (rest, r))
        else none) ∧
    (Mock.done q = true ↔ q = []) ∧
    (Mock.doCall call q = none → ∀ cs, Mock.runCalls (call :: cs) q = none) := by
  refine ⟨?_, ?_, ?_⟩
  · rcases q with _ | ⟨n, rest⟩
    · cases call <;> rfl
    · cases call <;>
        simp only [Mock.doCall, Mock.reqOf, Mock.translate, Mock.next,
          Mock.set_state, Mock.get_state, Mock.is_busy, Mock.set_channel,
          Mock.set_power, Mock.poll_rssi, Mock.get_interrupts,
          Mock.start_transmit, Mock.check_transmit, Mock.start_receive,
          Mock.check_receive, Mock.get_received, Mock.delay_ns] <;>
        split <;>
        first
          | rfl
          | (cases n.response <;> (try rfl) <;> (split <;> simp_all [Mock.translate]))
  · simp [Mock.done, List.isEmpty_iff]
  · intro h cs
    simp [Mock.runCalls, h]

/-- Witness for C5: against a queue expecting `start_transmit` first, an
out-of-order `check_transmit` call fails immediately, and so does the whole
call sequence — even though the queued order would have satisfied it. -/
theorem c5_mock_strict_fifo_witness :
    Mock.doCall Mock.Call.checkTransmit
      ([Mock.Transaction.start_transmit [170, 187] none] : List MockTransaction) = none ∧
    Mock.runCalls [Mock.Call.checkTransmit, Mock.Call.startTransmit [170, 187]]
      ([Mock.Transaction.start_transmit [170, 187] none] : List MockTransaction) = none := by
  refine ⟨by decide, ?_⟩
  exact (c5_mock_strict_fifo Mock.Call.checkTransmit
    ([Mock.Transaction.start_transmit [170, 187] none] : List MockTransaction)).2.2
    (by decide) [Mock.Call.startTransmit [170, 187]]

/-- C8: byte-exact round trip through the mock. `start_transmit` can only
succeed when the transmitted bytes equal, byte for byte, the bytes recorded
in the head transaction (and does succeed on equality); and `get_received`
with a canned `Received(d, i)` response writes `d` over the buffer prefix
and returns `(d.length, i)` — the returned buffer's prefix is exactly `d`
and its length is unchanged. -/
theorem c8_mock_roundtrip_bytes {St Reg Ch Inf Irq E : Type}
    [DecidableEq St] [DecidableEq Reg] [DecidableEq Ch] :
    (∀ (exp d : List Nat) (err : Option E)
        (rest q' : List (Mock.Transaction St Reg Ch Inf Irq E)) (r : Except E Unit),
      Mock.start_transmit (Mock.Transaction.start_transmit exp err :: rest) d =
        some (q', r) → d = exp) ∧
    (∀ (d : List Nat) (rest : List (Mock.Transaction St Reg Ch Inf Irq E)),
      Mock.start_transmit (Mock.Transaction.start_transmit d none :: rest) d =
        some (rest, .ok ())) ∧
    (∀ (d : List Nat) (i : Inf) (rest : List (Mock.Transaction St Reg Ch Inf Irq E))
        (buff : List Nat), d.length ≤ buff.length →
      Mock.get_received (Mock.Transaction.get_received (.ok (d, i)) :: rest) buff =
        some (rest, d ++ buff.drop d.length, .ok (d.length, i)) ∧
      (d ++ buff.drop d.length).take d.length = d ∧
      (d ++ buff.drop d.length).length = buff.length) := by
  refine ⟨?_, ?_, ?_⟩
  · intro exp d err rest q' r h
    simp only [Mock.start_transmit, Mock.next, Mock.Transaction.start_transmit] at h
    split at h
    · next hcond => exact (Mock.Request.StartTransmit.inj hcond).symm
    · exact absurd h (by simp)
  · intro d rest
    simp [Mock.start_transmit, Mock.next, Mock.Transaction.start_transmit, Mock.respOfErr]
  · intro d i rest buff hlen
    refine ⟨?_, ?_, ?_⟩
    · simp [Mock.get_received, Mock.next, Mock.Transaction.get_received, hlen]
    · exact List.take_left d (buff.drop d.length)
    · simp only [List.length_append, List.length_drop]
      omega

/-- Witness for C8, scenario C: bytes `[0xAA, 0xBB]` with rssi `-81` round
trip: transmit matches byte for byte, `get_received` yields length 2, the
buffer prefix `[0xAA, 0xBB]`, and info whose rssi is `-81`. -/
theorem c8_mock_roundtrip_bytes_witness :
    Mock.start_transmit
      ([Mock.Transaction.start_transmit [170, 187] none] : List MockTransaction)
      [170, 187] = some ([], .ok ()) ∧
    (Mock.get_received
        ([Mock.Transaction.get_received (.ok ([170, 187], ⟨-81, 0⟩))] : List MockTransaction)
        (List.replicate 8 0) =
      some ([], [170, 187] ++ (List.replicate 8 0).drop 2, .ok (2, ⟨-81, 0⟩)) ∧
      ([170, 187] ++ (List.replicate 8 0).drop 2).take 2 = [170, 187] ∧
      ([170, 187] ++ (List.replicate 8 0).drop 2).length = 8) ∧
    (BasicInfo.mk (-81) 0).rssi = -81 := by
  refine ⟨by decide, ?_, rfl⟩
  have h := (@c8_mock_roundtrip_bytes MockState Nat Nat BasicInfo Nat MockError
    _ _ _).2.2 [170, 187] ⟨-81, 0⟩ [] (List.replicate 8 0) (by decide)
  simpa using h

/-- C10: the mock's `get_received` is partial in the caller's buffer: with a
`Received(d, i)` response at the head, a buffer at least as long as `d`
receives `d` in its prefix and the call returns `(d.length, i)`, while a
strictly shorter buffer makes the call panic (`none`) instead of returning a
device error. -/
theorem c10_mock_get_received_buffer_overrun {St Reg Ch Inf Irq E : Type}
    [DecidableEq St] [DecidableEq Reg] [DecidableEq Ch]
    (d : List Nat) (i : Inf) (rest : List (Mock.Transaction St Reg Ch Inf Irq E))
    (buff : List Nat) :
    (d.length ≤ buff.length →
      Mock.get_received (Mock.Transaction.get_received (.ok (d, i)) :: rest) buff =
        some (rest, d ++ buff.drop d.length, .ok (d.length, i))) ∧
    (buff.length < d.length →
      Mock.get_received (Mock.Transaction.get_received (.ok (d, i)) :: rest) buff =
        none) := by
  constructor
  · intro hlen
    simp [Mock.get_received, Mock.next, Mock.Transaction.get_received, hlen]
  · intro hlen
    simp [Mock.get_received, Mock.next, Mock.Transaction.get_received]
    omega

/-- Witness for C10: a 2-byte response into a 3-byte buffer succeeds; the
same response into a 1-byte buffer panics. -/
theorem c10_mock_get_received_buffer_overrun_witness :
    Mock.get_received
      ([Mock.Transaction.get_received (.ok ([170, 187], ⟨-81, 0⟩))] : List MockTransaction)
      [0, 0, 0] = some ([], [170, 187, 0], .ok (2, ⟨-81, 0⟩)) ∧
    Mock.get_received
      ([Mock.Transaction.get_received (.ok ([170, 187], ⟨-81, 0⟩))] : List MockTransaction)
      [0] = none := by
  constructor
  · have h := (@c10_mock_get_received_buffer_overrun MockState Nat Nat BasicInfo Nat
      MockError _ _ _ [170, 187] ⟨-81, 0⟩ [] [0, 0, 0]).1 (by decide)
    simpa using h
  · exact (@c10_mock_get_received_buffer_overrun MockState Nat Nat BasicInfo Nat
      MockError _ _ _ [170, 187] ⟨-81, 0⟩ [] [0]).2 (by decide)

end RadioHal
